import Mathlib

/-!
Verification of the Sentinel AI governance gateway core: a shallow embedding
of the policy engine (PII sanitization, rule matching, risk scoring, decision
derivation), the circuit breaker (shadow/enforce mode handling and approval
orchestration) and the rate limiter, translated from `app/policy_engine.py`,
`app/circuit_breaker.py`, `app/redis_client.py`, `app/config.py` and
`app/models.py`.

Modelling conventions:
* Python floats are modelled as exact rationals (`ℚ`); every comparison the
  claims exercise happens at values where rational and IEEE semantics agree.
* Python's dynamically typed parameter/context values are modelled by the
  `Value` sum type; `dict`s are association lists in insertion order.
* Python exceptions are modelled with `Except String`; the engine's
  `try/except` block becomes a `match` on the `Except` result, carrying the
  partial result state that the in-place mutations of the source leave behind.
* Wall-clock times (the `perf_counter` based `evaluation_time_ms`) enter the
  embedding as an explicit parameter.
* Text scanning is restricted to ASCII, matching the regex fallback scanner's
  effective behaviour on the inputs exercised here.
-/

namespace Sentinel

/-- `ActionType` from `app/models.py`. -/
inductive ActionType where
  | database_query
  | database_write
  | api_call
  | file_access
  | payment
  | refund
  | user_data_access
  | admin_action
deriving DecidableEq, Repr

/-- The `.value` string of an `ActionType` member. -/
def ActionType.value : ActionType → String
  | .database_query => "database_query"
  | .database_write => "database_write"
  | .api_call => "api_call"
  | .file_access => "file_access"
  | .payment => "payment"
  | .refund => "refund"
  | .user_data_access => "user_data_access"
  | .admin_action => "admin_action"

/-- `RiskLevel` from `app/models.py`. -/
inductive RiskLevel where
  | low
  | medium
  | high
  | critical
deriving DecidableEq, Repr

/-- The `.value` string of a `RiskLevel` member. -/
def RiskLevel.value : RiskLevel → String
  | .low => "low"
  | .medium => "medium"
  | .high => "high"
  | .critical => "critical"

/-- `DecisionType` from `app/models.py`. -/
inductive DecisionType where
  | allow
  | deny
  | pending_approval
  | shadow_logged
deriving DecidableEq, Repr

/-- `GatewayMode` from `app/config.py`. -/
inductive GatewayMode where
  | SHADOW
  | ENFORCE
deriving DecidableEq, Repr

/-- A dynamically typed Python value, as found in request `parameters`,
`context` and rule `conditions` mappings.  Lists and dicts are represented
in spine (cons-cell) form so that every traversal is plain structural
recursion; `vlist` / `vdict` below build them from ordinary Lean lists.
Dicts are insertion-ordered. -/
inductive Value where
  | vStr (s : String)
  | vInt (n : Int)
  | vFloat (q : ℚ)
  | vBool (b : Bool)
  | vNull
  | vListNil
  | vListCons (head tail : Value)
  | vDictNil
  | vDictCons (key : String) (head tail : Value)
deriving DecidableEq, Repr

/-- Build a Python list value from a Lean list. -/
def vlist : List Value → Value
  | [] => Value.vListNil
  | v :: rest => Value.vListCons v (vlist rest)

/-- Build a Python dict value from an insertion-ordered association list. -/
def vdict : List (String × Value) → Value
  | [] => Value.vDictNil
  | (k, v) :: rest => Value.vDictCons k v (vdict rest)

/-- The items of a (spine-form) Python list value. -/
def Value.items : Value → List Value
  | .vListCons head tail => head :: tail.items
  | _ => []

/-- The keys of a (spine-form) Python dict value. -/
def Value.keys : Value → List String
  | .vDictCons key _ tail => key :: tail.keys
  | _ => []

/-- Leftmost association-list lookup: Python `d[k]` / `d.get(k)`. -/
def vlookup (k : String) : List (String × Value) → Option Value
  | [] => none
  | (k', v) :: rest => if k' = k then some v else vlookup k rest

/-- Python `isinstance(v, (int, float))`.  `bool` is a subclass of `int`. -/
def Value.isNumeric : Value → Bool
  | .vInt _ => true
  | .vFloat _ => true
  | .vBool _ => true
  | _ => false

/-- Numeric value of a Python number (`True` counts as 1, `False` as 0). -/
def Value.toRat : Value → ℚ
  | .vInt n => (n : ℚ)
  | .vFloat q => q
  | .vBool b => if b then 1 else 0
  | _ => 0

/-- Python truthiness. -/
def Value.pyTruthy : Value → Bool
  | .vStr s => !s.isEmpty
  | .vInt n => n ≠ 0
  | .vFloat q => q ≠ 0
  | .vBool b => b
  | .vNull => false
  | .vListNil => false
  | .vListCons _ _ => true
  | .vDictNil => false
  | .vDictCons _ _ _ => true

/-- Python `str()` of a value, as used by the f-strings that build denial
reasons.  Exact for the `int` and `str` values the reasons are built from. -/
def Value.pyStr : Value → String
  | .vStr s => s
  | .vInt n => toString n
  | .vFloat q => toString q.num ++ "." ++ toString q.den
  | .vBool b => if b then "True" else "False"
  | .vNull => "None"
  | .vListNil | .vListCons _ _ => "[...]"
  | .vDictNil | .vDictCons _ _ _ => "{...}"

/-- Python `a > b`: numbers compare numerically, strings lexicographically,
any other combination raises `TypeError`. -/
def pyGT (a b : Value) : Except String Bool :=
  if a.isNumeric && b.isNumeric then .ok (decide (b.toRat < a.toRat))
  else
    match a, b with
    | .vStr s, .vStr t => .ok (decide (t < s))
    | _, _ => .error ("TypeError: unsupported operand types for >")

/-- Python `max(a, b)`: keeps `a` unless `b > a`. -/
def pyMax (a b : Value) : Except String Value := do
  if (← pyGT b a) then pure b else pure a

/-- Substring test on character lists (Python `needle in hay` for `str`). -/
def containsSub : List Char → List Char → Bool
  | [], needle => needle.isEmpty
  | hay@(_ :: rest), needle => needle.isPrefixOf hay || containsSub rest needle

/-- Python `needle in hay` for strings. -/
def strContainsSub (hay needle : String) : Bool :=
  containsSub hay.data needle.data

/-- The ASCII whitespace set of Python `str.strip()` and `\s`. -/
def pySpaceStrip (c : Char) : Bool :=
  c = ' ' || c = '\t' || c = '\n' || c = '\r' || c = '\x0b' || c = '\x0c'

/-- Python `str.lower()` (ASCII). -/
def strToLower (s : String) : String := String.mk (s.data.map Char.toLower)

/-- Python `str.strip()`: drop leading and trailing whitespace. -/
def pyStrip (s : String) : String :=
  String.mk (((s.data.dropWhile pySpaceStrip).reverse.dropWhile pySpaceStrip).reverse)

/-! ### The regex fallback PII scanner

`PIISanitizer._fallback_sanitize` applies five regexes in insertion order
(EMAIL_ADDRESS, US_SSN, PHONE_NUMBER, CREDIT_CARD, IP_ADDRESS), replacing
every match by `[REDACTED]`.  Each pattern is embedded as a backtracking
matcher with Python `re` semantics (leftmost match, greedy preference
order, ASCII `\b` word boundaries), and `re.sub` as a left-to-right scan
that keeps the original character before each position for the `\b` test. -/

/-- ASCII `\w` (Python word character). -/
def isWordChar (c : Char) : Bool := c.isAlphanum || c = '_'

/-- Word-ness of an optional character; string ends count as non-word. -/
def isWordOpt : Option Char → Bool
  | some c => isWordChar c
  | none => false

/-- `\b`: the word boundary test between two adjacent positions. -/
def boundary (prev next : Option Char) : Bool := isWordOpt prev != isWordOpt next

/-- `\b` at the current scan position. -/
def atBoundary (prev : Option Char) (s : List Char) : Bool := boundary prev s.head?

/-- Python `\s` (ASCII). -/
def pySpace (c : Char) : Bool := pySpaceStrip c

/-- First alternative (in backtracking preference order) for which the
continuation succeeds. -/
def firstSome (f : α → Option β) : List α → Option β
  | [] => none
  | a :: rest => (f a) <|> firstSome f rest

/-- Consume exactly `n` digits. -/
def eatDigits : Nat → List Char → Option (List Char)
  | 0, s => some s
  | _ + 1, [] => none
  | n + 1, c :: rest => if c.isDigit then eatDigits n rest else none

/-- Remainders after an optional single character `c` (greedy: with first). -/
def optChar (c : Char) (s : List Char) : List (List Char) :=
  match s with
  | c' :: rest => if c' = c then [rest, s] else [s]
  | [] => [s]

/-- Remainders after an optional separator drawn from `sep` (greedy). -/
def optSep (sep : Char → Bool) (s : List Char) : List (List Char) :=
  match s with
  | c :: rest => if sep c then [rest, s] else [s]
  | [] => [s]

/-- Trailing `\b` after a match that ends in a digit. -/
def digitBoundaryOk : List Char → Bool
  | [] => true
  | c :: _ => !isWordChar c

/-- The separator class `[-.\s]` of the phone pattern. -/
def phoneSep (c : Char) : Bool := c = '-' || c = '.' || pySpace c

/-- Remainders after the optional `(?:\+1[-.]?)?` phone prefix (greedy). -/
def phonePlusCandidates (s : List Char) : List (List Char) :=
  match s with
  | '+' :: '1' :: rest =>
    match rest with
    | c :: rest2 => if c = '-' || c = '.' then [rest2, rest, s] else [rest, s]
    | [] => [rest, s]
  | _ => [s]

/-- `\b(?:\+1[-.]?)?\(?\d{3}\)?[-.\s]?\d{3}[-.\s]?\d{4}\b` after its
leading `\b`: returns the remainder after the preferred match. -/
def phoneCore (s : List Char) : Option (List Char) :=
  firstSome (fun s1 =>
    firstSome (fun s2 => do
      let s3 ← eatDigits 3 s2
      firstSome (fun s4 =>
        firstSome (fun s5 => do
          let s6 ← eatDigits 3 s5
          firstSome (fun s7 => do
            let s8 ← eatDigits 4 s7
            if digitBoundaryOk s8 then some s8 else none)
            (optSep phoneSep s6))
          (optSep phoneSep s4))
        (optChar ')' s3))
      (optChar '(' s1))
    (phonePlusCandidates s)

/-- `\b\d{3}-\d{2}-\d{4}\b` after its leading `\b`. -/
def ssnCore (s : List Char) : Option (List Char) := do
  let s1 ← eatDigits 3 s
  let s2 ← match s1 with | '-' :: r => some r | _ => none
  let s3 ← eatDigits 2 s2
  let s4 ← match s3 with | '-' :: r => some r | _ => none
  let s5 ← eatDigits 4 s4
  if digitBoundaryOk s5 then some s5 else none

/-- The separator class `[-\s]` of the credit-card pattern. -/
def ccSep (c : Char) : Bool := c = '-' || pySpace c

/-- `\b(?:\d{4}[-\s]?){3}\d{4}\b` after its leading `\b`. -/
def ccCore (s : List Char) : Option (List Char) := do
  let a ← eatDigits 4 s
  firstSome (fun b => do
    let c ← eatDigits 4 b
    firstSome (fun d => do
      let e ← eatDigits 4 d
      firstSome (fun f => do
        let g ← eatDigits 4 f
        if digitBoundaryOk g then some g else none)
        (optSep ccSep e))
      (optSep ccSep c))
    (optSep ccSep a)

/-- Remainders after `\d{1,3}` in greedy (3, 2, 1) preference order. -/
def digitRunCandidates (s : List Char) : List (List Char) :=
  match s with
  | a :: rest =>
    if a.isDigit then
      match rest with
      | b :: rest2 =>
        if b.isDigit then
          match rest2 with
          | c :: rest3 => if c.isDigit then [rest3, rest2, rest] else [rest2, rest]
          | [] => [rest2, rest]
        else [rest]
      | [] => [rest]
    else []
  | [] => []

/-- `\b(?:\d{1,3}\.){3}\d{1,3}\b` after its leading `\b`. -/
def ipCore (s : List Char) : Option (List Char) :=
  firstSome (fun s1 => do
    let s1' ← match s1 with | '.' :: r => some r | _ => none
    firstSome (fun s2 => do
      let s2' ← match s2 with | '.' :: r => some r | _ => none
      firstSome (fun s3 => do
        let s3' ← match s3 with | '.' :: r => some r | _ => none
        firstSome (fun s4 => if digitBoundaryOk s4 then some s4 else none)
          (digitRunCandidates s3'))
        (digitRunCandidates s2'))
      (digitRunCandidates s1'))
    (digitRunCandidates s)

/-- Local-part class `[A-Za-z0-9._%+-]` of the email pattern. -/
def localChar (c : Char) : Bool :=
  c.isAlphanum || c = '.' || c = '_' || c = '%' || c = '+' || c = '-'

/-- Domain class `[A-Za-z0-9.-]` of the email pattern. -/
def domChar (c : Char) : Bool := c.isAlphanum || c = '.' || c = '-'

/-- TLD class `[A-Z|a-z]` of the email pattern (the `|` is inside the
character class in the source, so it is a literal member). -/
def tldChar (c : Char) : Bool := c.isAlpha || c = '|'

/-- Lengths `hi, hi-1, …, lo` in greedy preference order. -/
def countdown (hi lo : Nat) : List Nat :=
  (List.range (hi + 1 - lo)).map fun i => hi - i

/-- `\b[A-Za-z0-9._%+-]+@[A-Za-z0-9.-]+\.[A-Z|a-z]{2,}\b` after its leading
`\b`: the local part is the maximal run (the class excludes `@`); the
domain run and TLD length backtrack longest-first. -/
def emailCore (s : List Char) : Option (List Char) :=
  let localRun := s.takeWhile localChar
  if localRun.isEmpty then none
  else
    match s.dropWhile localChar with
    | '@' :: afterAt =>
      let m := (afterAt.takeWhile domChar).length
      firstSome (fun d =>
        if d = 0 then none
        else
          match afterAt.drop d with
          | '.' :: afterDot =>
            let tmax := (afterDot.takeWhile tldChar).length
            if tmax < 2 then none
            else
              firstSome (fun t =>
                match (afterDot.take t).getLast? with
                | some lastTld =>
                  if boundary (some lastTld) (afterDot.drop t).head? then
                    some (afterDot.drop t)
                  else none
                | none => none)
                (countdown tmax 2)
          | _ => none)
        (countdown m 1)
    | _ => none

/-- Attempt a pattern at the current position: its leading `\b`, then the
core; returns the match length. -/
def matchLen (core : List Char → Option (List Char)) (prev : Option Char)
    (s : List Char) : Option Nat :=
  if atBoundary prev s then (core s).map (fun rem => s.length - rem.length) else none

/-- `re.sub` for one pattern: scan left to right; at a match, emit the
replacement and continue after the match, remembering the match's last
original character for the next `\b` test.  `fuel` only bounds recursion
(every step consumes at least one character). -/
def subScan (matchAt : Option Char → List Char → Option Nat) (repl : List Char) :
    Nat → Option Char → List Char → List Char
  | 0, _, s => s
  | _ + 1, _, [] => []
  | fuel + 1, prev, c :: rest =>
    match matchAt prev (c :: rest) with
    | some n =>
      if n = 0 then c :: subScan matchAt repl fuel (some c) rest
      else repl ++ subScan matchAt repl fuel ((c :: rest).take n).getLast? ((c :: rest).drop n)
    | none => c :: subScan matchAt repl fuel (some c) rest

/-- `re.search`: does any position carry a match? -/
def anyMatch (matchAt : Option Char → List Char → Option Nat) :
    Option Char → List Char → Bool
  | prev, [] => (matchAt prev []).isSome
  | prev, c :: rest => (matchAt prev (c :: rest)).isSome || anyMatch matchAt (some c) rest

/-- `re.sub(pattern, repl, s)` over a whole string. -/
def subAll (matchAt : Option Char → List Char → Option Nat) (repl : List Char)
    (s : List Char) : List Char :=
  subScan matchAt repl (s.length + 1) none s

/-- One iteration of the `_fallback_sanitize` loop: on `re.search` success,
record the entity type and replace every match. -/
def fallbackStep (matchAt : Option Char → List Char → Option Nat) (entity : String)
    (acc : String × List String) : String × List String :=
  if anyMatch matchAt none acc.1.data then
    (String.mk (subAll matchAt ("[REDACTED]").data acc.1.data), acc.2 ++ [entity])
  else acc

/-- `PIISanitizer._fallback_sanitize`: the five patterns in source order. -/
def fallbackSanitize (text : String) : String × List String :=
  fallbackStep (matchLen ipCore) ("IP_ADDRESS")
    (fallbackStep (matchLen ccCore) ("CREDIT_CARD")
      (fallbackStep (matchLen phoneCore) ("PHONE_NUMBER")
        (fallbackStep (matchLen ssnCore) ("US_SSN")
          (fallbackStep (matchLen emailCore) ("EMAIL_ADDRESS") (text, [])))))

/-- `PIISanitizer.sanitize_text` in the fallback configuration (no Presidio
engines): empty text is returned untouched, otherwise `_fallback_sanitize`
runs. -/
def sanitizeTextFallback (text : String) : String × List String :=
  if text.isEmpty then (text, []) else fallbackSanitize text

/-- `PIISanitizer._sanitize_recursive`: strings are scanned, dict values and
list items recurse (dict keys are not scanned), other leaves pass through;
detected entity types accumulate in traversal order. -/
def sanitizeValue (san : String → String × List String) : Value → Value × List String
  | .vStr s => ((Value.vStr (san s).1), (san s).2)
  | .vListCons head tail =>
    let h := sanitizeValue san head
    let t := sanitizeValue san tail
    (.vListCons h.1 t.1, h.2 ++ t.2)
  | .vDictCons key head tail =>
    let h := sanitizeValue san head
    let t := sanitizeValue san tail
    (.vDictCons key h.1 t.1, h.2 ++ t.2)
  | v => (v, [])

/-- `_sanitize_recursive` over a top-level dict (association list). -/
def sanitizeEntries (san : String → String × List String) :
    List (String × Value) → List (String × Value) × List String
  | [] => ([], [])
  | (k, v) :: rest =>
    let h := sanitizeValue san v
    let t := sanitizeEntries san rest
    ((k, h.1) :: t.1, h.2 ++ t.2)

/-- `PIISanitizer.sanitize_dict`: recursive sanitization plus
`list(set(...))` de-duplication of the detected entity types. -/
def sanitizeDict (san : String → String × List String)
    (data : List (String × Value)) : List (String × Value) × List String :=
  let r := sanitizeEntries san data
  (r.1, r.2.eraseDups)

/-- `Settings` from `app/config.py`, restricted to the tunables the core
evaluation pipeline reads. -/
structure Settings where
  gateway_mode : GatewayMode
  risk_score_block_threshold : ℚ
  risk_score_approval_threshold : ℚ
  rate_limit_requests : Int
  rate_limit_window_seconds : Int
deriving DecidableEq, Repr

/-- The defaults declared on `Settings` in `app/config.py`. -/
def defaultSettings : Settings where
  gateway_mode := GatewayMode.ENFORCE
  risk_score_block_threshold := 1
  risk_score_approval_threshold := mkRat 8 10
  rate_limit_requests := 1000
  rate_limit_window_seconds := 60

/-- `AgentRequest` from `app/models.py` (the uuid is abstracted to a `Nat`
and the wall-clock timestamp is dropped: no claim reads it). -/
structure AgentRequest where
  request_id : Nat
  agent_id : String
  action_type : ActionType
  target_resource : String
  parameters : List (String × Value)
  context : List (String × Value)
deriving DecidableEq, Repr

/-- `PolicyRule` from `app/models.py`. -/
structure PolicyRule where
  rule_id : String
  name : String
  description : Option String := none
  action_types : List ActionType
  conditions : List (String × Value)
  risk_score_modifier : ℚ := 0
  enabled : Bool := true
  priority : Int := 100
deriving DecidableEq, Repr

/-- The `sanitized_request` dict assembled by `PolicyEngine.evaluate` (a
fixed-shape dict, modelled as a structure). -/
structure SanitizedRequest where
  parameters : List (String × Value)
  context : List (String × Value)
  agent_id : String
  action_type : String
  target_resource : String
deriving DecidableEq, Repr

/-- `PolicyEvaluationResult` from `app/models.py` (uuid and timestamp
abstracted as in `AgentRequest`). -/
structure PolicyEvaluationResult where
  request_id : Nat
  decision : DecisionType
  risk_score : ℚ
  risk_level : RiskLevel
  matched_rules : List String
  denial_reasons : List String
  sanitized_request : Option SanitizedRequest := none
  pii_detected : Bool := false
  pii_fields : List String := []
  evaluation_time_ms : ℚ := 0
deriving DecidableEq, Repr

/-- The loop body of the `protected_tables` check in
`PolicyEngine._evaluate_conditions`: find the first table whose lowercase
form occurs in the (already lowercased) target; a non-string element raises
when `.lower()` is called on it. -/
def findProtectedTable (target : String) : List Value → Except String (Option String)
  | [] => .ok none
  | v :: rest =>
    match v with
    | .vStr table =>
      if strContainsSub target (strToLower table) then .ok (some table)
      else findProtectedTable target rest
    | _ => .error ("AttributeError: object has no attribute lower")

/-- Python iteration over the `protected_tables` condition value: lists
yield their items, strings their characters, dicts their keys; anything else
raises `TypeError`. -/
def pyIter : Value → Except String (List Value)
  | v@(.vListNil) | v@(.vListCons _ _) => .ok v.items
  | .vStr s => .ok (s.data.map fun c => Value.vStr (String.mk [c]))
  | v@(.vDictNil) | v@(.vDictCons _ _ _) => .ok (v.keys.map Value.vStr)
  | _ => .error ("TypeError: object is not iterable")

/-- `PolicyEngine._evaluate_conditions` from `app/policy_engine.py`:
returns `(is_violation, reason_message)`, or the exception any of its
comparisons raises.  Checks run in source order with early return on the
first violation. -/
def evalConditions (policy : PolicyRule) (request : AgentRequest)
    (sanitizedParams : List (String × Value)) : Except String (Bool × String) := do
  let conditions := policy.conditions
  -- max_amount: numeric `parameters.amount > N` is a violation
  if let some maxAmt := vlookup ("max_amount") conditions then
    let amount := (vlookup ("amount") sanitizedParams).getD (Value.vInt 0)
    if amount.isNumeric then
      if (← pyGT amount maxAmt) then
        return (true, "Amount $" ++ amount.pyStr ++ " exceeds limit of $" ++
          maxAmt.pyStr ++ " (" ++ policy.name ++ ")")
  -- protected_tables
  if let some tablesVal := vlookup ("protected_tables") conditions then
    let target := strToLower request.target_resource
    let items ← pyIter tablesVal
    match (← findProtectedTable target items) with
    | some table =>
      return (true, "Access to protected resource '" ++ table ++ "' (" ++
        policy.name ++ ")")
    | none => pure ()
  -- max_affected_rows
  if let some maxRows := vlookup ("max_affected_rows") conditions then
    let affected := (vlookup ("affected_rows") sanitizedParams).getD (Value.vInt 0)
    let limit := (vlookup ("limit") sanitizedParams).getD (Value.vInt 0)
    let count ← pyMax affected limit
    if (← pyGT count maxRows) then
      return (true, "Bulk operation affects " ++ count.pyStr ++ " rows, limit is " ++
        maxRows.pyStr ++ " (" ++ policy.name ++ ")")
  -- require_justification
  if ((vlookup ("require_justification") conditions).getD Value.vNull).pyTruthy then
    let justification := (vlookup ("justification") request.context).getD (Value.vStr "")
    if !justification.pyTruthy then
      return (true, "Justification required for this action (" ++ policy.name ++ ")")
    else
      match justification with
      | .vStr s =>
        if (pyStrip s).length < 10 then
          return (true, "Justification required for this action (" ++ policy.name ++ ")")
      | _ => throw ("AttributeError: object has no attribute strip")
  -- empty conditions: the action-type match itself is flagged
  if conditions.isEmpty then
    return (true, "Action type flagged by policy (" ++ policy.name ++ ")")
  return (false, "")

/-- The rule-matching loop of `PolicyEngine.evaluate` (step 3): walks the
policies in the order the cache returned them, skipping disabled rules and
rules not covering the request's action type; a violation appends the rule id
and reason and accumulates the risk modifier.  An exception aborts the loop,
carrying the accumulator state the in-place mutations leave behind. -/
def runPolicies (request : AgentRequest) (sanitizedParams : List (String × Value)) :
    List PolicyRule → List String → List String → ℚ →
    Except (String × List String × List String) (List String × List String × ℚ)
  | [], matched, reasons, cum => .ok (matched, reasons, cum)
  | policy :: rest, matched, reasons, cum =>
    if !policy.enabled then
      runPolicies request sanitizedParams rest matched reasons cum
    else if request.action_type ∉ policy.action_types then
      runPolicies request sanitizedParams rest matched reasons cum
    else
      match evalConditions policy request sanitizedParams with
      | .error e => .error (e, matched, reasons)
      | .ok (violation, reason) =>
        if violation then
          runPolicies request sanitizedParams rest (matched ++ [policy.rule_id])
            (reasons ++ [reason]) (cum + policy.risk_score_modifier)
        else
          runPolicies request sanitizedParams rest matched reasons cum

/-- `PolicyEngine._calculate_risk_level` from `app/policy_engine.py`. -/
def calculateRiskLevel (risk_score : ℚ) : RiskLevel :=
  if mkRat 8 10 ≤ risk_score then RiskLevel.critical
  else if mkRat 5 10 ≤ risk_score then RiskLevel.high
  else if mkRat 2 10 ≤ risk_score then RiskLevel.medium
  else RiskLevel.low

/-- `PolicyEngine._determine_decision` from `app/policy_engine.py`. -/
def determineDecision (settings : Settings) (risk_score : ℚ) : DecisionType :=
  if settings.risk_score_block_threshold ≤ risk_score then
    if settings.gateway_mode = GatewayMode.SHADOW then DecisionType.shadow_logged
    else DecisionType.deny
  else if settings.risk_score_approval_threshold ≤ risk_score then
    DecisionType.pending_approval
  else DecisionType.allow

/-- `PolicyEngine.evaluate` from `app/policy_engine.py`.  `san` is the text
scanner in effect (`sanitizeTextFallback` when Presidio is unavailable),
`policies` the sequence `get_active_policies` returned, and `elapsedMs` the
wall-clock duration recorded in the `finally` block.  The `try/except`
block is the `match` on `runPolicies`: an exception leaves the partially
mutated result in place and overrides decision, score, level and appends
the error reason. -/
def evaluate (settings : Settings) (san : String → String × List String)
    (policies : List PolicyRule) (request : AgentRequest) (elapsedMs : ℚ) :
    PolicyEvaluationResult :=
  let sp := sanitizeDict san request.parameters
  let sc := sanitizeDict san request.context
  let allPii := (sp.2 ++ sc.2).eraseDups
  let base : PolicyEvaluationResult := {
    request_id := request.request_id
    decision := DecisionType.allow
    risk_score := 0
    risk_level := RiskLevel.low
    matched_rules := []
    denial_reasons := []
    sanitized_request := some {
      parameters := sp.1
      context := sc.1
      agent_id := request.agent_id
      action_type := request.action_type.value
      target_resource := request.target_resource }
    pii_detected := !allPii.isEmpty
    pii_fields := allPii
    evaluation_time_ms := elapsedMs }
  match runPolicies request sp.1 policies [] [] 0 with
  | .ok (matched, reasons, cum) =>
    let score := min 1 (max 0 cum)
    { base with
      matched_rules := matched,
      denial_reasons := reasons,
      risk_score := score,
      risk_level := calculateRiskLevel score,
      decision := determineDecision settings score }
  | .error (e, matched, reasons) =>
    { base with
      matched_rules := matched,
      denial_reasons := reasons ++ ["Evaluation error: " ++ e],
      risk_score := 1,
      risk_level := RiskLevel.critical,
      decision := DecisionType.deny }

/-- The built-in default policy set from
`PolicyEngine._load_default_policies`, in its source (list) order. -/
def defaultPolicies : List PolicyRule := [
  { rule_id := "refund_limit_500"
    name := "Refund Amount Limit"
    description := some "Block refunds exceeding $500"
    action_types := [ActionType.refund]
    conditions := [("max_amount", Value.vInt 500)]
    risk_score_modifier := 1
    priority := 10 },
  { rule_id := "payment_limit_10000"
    name := "Payment Amount Limit"
    description := some "Require approval for payments over $10,000"
    action_types := [ActionType.payment]
    conditions := [("max_amount", Value.vInt 10000)]
    risk_score_modifier := mkRat 85 100
    priority := 20 },
  { rule_id := "admin_action_high_risk"
    name := "Admin Actions High Risk"
    description := some "All admin actions are high risk"
    action_types := [ActionType.admin_action]
    conditions := []
    risk_score_modifier := mkRat 85 100
    priority := 5 },
  { rule_id := "user_data_access"
    name := "User Data Access Control"
    description := some "User data access requires extra scrutiny"
    action_types := [ActionType.user_data_access]
    conditions := [("require_justification", Value.vBool true)]
    risk_score_modifier := mkRat 3 10
    priority := 30 },
  { rule_id := "database_write_protection"
    name := "Database Write Protection"
    description := some "Database writes to protected tables"
    action_types := [ActionType.database_write]
    conditions := [("protected_tables",
      vlist [Value.vStr "users", Value.vStr "payments", Value.vStr "credentials"])]
    risk_score_modifier := 1
    priority := 15 },
  { rule_id := "bulk_operation_limit"
    name := "Bulk Operation Limit"
    description := some "Limit bulk operations affecting many records"
    action_types := [ActionType.database_write, ActionType.database_query]
    conditions := [("max_affected_rows", Value.vInt 1000)]
    risk_score_modifier := mkRat 9 10
    priority := 25 }]

/-! ### Circuit breaker and approval service (`app/circuit_breaker.py`) -/

/-- `ApprovalRequest` from `app/models.py` (uuid abstracted to `Nat`;
`requested_at` / `expires_at` are wall-clock values outside the embedding:
no claim reads them). -/
structure ApprovalRequest where
  approval_id : Nat
  request_id : Nat
  agent_id : String
  action_type : ActionType
  target_resource : String
  risk_score : ℚ
  risk_level : RiskLevel
  matched_rules : List String
  sanitized_parameters : List (String × Value)
  context : List (String × Value)
deriving DecidableEq, Repr

/-- `ApprovalService.request_approval`: builds the approval record persisted
to the cache and handed to the webhook.  `freshId` stands for the `uuid4()`
call.  Parameters come from the evaluation's sanitized request
(`evaluation.sanitized_request.get("parameters", {})`); the context is taken
from the raw request (`context=request.context`). -/
def requestApproval (freshId : Nat) (request : AgentRequest)
    (evaluation : PolicyEvaluationResult) : ApprovalRequest where
  approval_id := freshId
  request_id := request.request_id
  agent_id := request.agent_id
  action_type := request.action_type
  target_resource := request.target_resource
  risk_score := evaluation.risk_score
  risk_level := evaluation.risk_level
  matched_rules := evaluation.matched_rules
  sanitized_parameters :=
    match evaluation.sanitized_request with
    | some sr => sr.parameters
    | none => []
  context := request.context

/-- The JSON payload `ApprovalService._send_approval_webhook` posts
(ISO-8601 timestamp fields omitted: wall-clock values outside the
embedding). -/
structure WebhookPayload where
  event : String
  approval_id : Nat
  request_id : Nat
  agent_id : String
  action_type : String
  target_resource : String
  risk_score : ℚ
  risk_level : String
  matched_rules : List String
  parameters : List (String × Value)
  context : List (String × Value)
  callback_url : String
deriving DecidableEq, Repr

/-- The payload construction inside `_send_approval_webhook`. -/
def webhookPayload (approval : ApprovalRequest) : WebhookPayload where
  event := "approval_requested"
  approval_id := approval.approval_id
  request_id := approval.request_id
  agent_id := approval.agent_id
  action_type := approval.action_type.value
  target_resource := approval.target_resource
  risk_score := approval.risk_score
  risk_level := approval.risk_level.value
  matched_rules := approval.matched_rules
  parameters := approval.sanitized_parameters
  context := approval.context
  callback_url := "/api/v1/approvals/" ++ toString approval.approval_id ++ "/decision"

/-- `GatewayResponse` from `app/models.py`. -/
structure GatewayResponse where
  request_id : Nat
  status : String
  decision : DecisionType
  message : String
  risk_level : RiskLevel
  approval_required : Bool := false
  approval_id : Option Nat := none
  forwarded : Bool := false
deriving DecidableEq, Repr

/-- `CircuitBreaker.process` from `app/circuit_breaker.py`: maps the
evaluation decision and the current gateway mode to the client response.
`freshApprovalId` stands for the `uuid4()` the approval service would draw
on the enforce-mode pending-approval path (the approval service is
initialized in the deployed wiring). -/
def process (settings : Settings) (request : AgentRequest)
    (evaluation : PolicyEvaluationResult) (freshApprovalId : Nat) : GatewayResponse :=
  let response : GatewayResponse := {
    request_id := request.request_id
    status := "success"
    decision := evaluation.decision
    message := ""
    risk_level := evaluation.risk_level
    approval_required := false
    approval_id := none
    forwarded := false }
  match evaluation.decision with
  | .allow =>
    { response with status := "success", message := "Request approved", forwarded := true }
  | .shadow_logged =>
    { response with
      status := "success",
      message := "Request approved (shadow mode - would be blocked in enforce mode)",
      forwarded := true }
  | .pending_approval =>
    if settings.gateway_mode = GatewayMode.SHADOW then
      { response with
        status := "success",
        decision := DecisionType.shadow_logged,
        message := "Request approved (shadow mode - would require approval in enforce mode)",
        forwarded := true }
    else
      let approval := requestApproval freshApprovalId request evaluation
      { response with
        status := "pending",
        approval_required := true,
        approval_id := some approval.approval_id,
        message := "Request requires human approval. Approval ID: " ++
          toString approval.approval_id,
        forwarded := false }
  | .deny =>
    if settings.gateway_mode = GatewayMode.SHADOW then
      { response with
        status := "success",
        decision := DecisionType.shadow_logged,
        message := "Request approved (shadow mode - would be denied in enforce mode). Reasons: " ++
          String.intercalate ("; ") evaluation.denial_reasons,
        forwarded := true }
    else
      { response with
        status := "denied",
        message := "Request denied: " ++ String.intercalate ("; ") evaluation.denial_reasons,
        forwarded := false }

/-! ### Rate limiter (`RedisClient.check_rate_limit`) -/

/-- Integer association-list lookup (Redis keys to values). -/
def ilookup (k : String) : List (String × Int) → Option Int
  | [] => none
  | (k', v) :: rest => if k' = k then some v else ilookup k rest

/-- Set or insert a key in an integer association list. -/
def iset (k : String) (v : Int) : List (String × Int) → List (String × Int)
  | [] => [(k, v)]
  | (k', v') :: rest => if k' = k then (k, v) :: rest else (k', v') :: iset k v rest

/-- The slice of Redis state the rate limiter touches: per-agent counters
and their TTLs.  A missing TTL entry means no expiry (Redis reports `-1`
after a bare `INCR` creates the key). -/
structure RateLimitState where
  counters : List (String × Int)
  ttls : List (String × Int)
deriving DecidableEq, Repr

/-- `RedisClient.check_rate_limit`: `INCR` the per-agent counter, read its
TTL, set the window expiry if the key has none, and return
`(is_allowed, remaining)`.  `storeError` models the `except` branch (any
Redis failure): fail open with `(True, rate_limit_requests)`. -/
def checkRateLimit (settings : Settings) (st : RateLimitState) (agent_id : String)
    (storeError : Bool) : (Bool × Int) × RateLimitState :=
  if storeError then ((true, settings.rate_limit_requests), st)
  else
    let current_count := (ilookup agent_id st.counters).getD 0 + 1
    let counters' := iset agent_id current_count st.counters
    let ttl := (ilookup agent_id st.ttls).getD (-1)
    let ttls' :=
      if ttl = -1 then iset agent_id settings.rate_limit_window_seconds st.ttls
      else st.ttls
    let remaining := max 0 (settings.rate_limit_requests - current_count)
    let is_allowed := current_count ≤ settings.rate_limit_requests
    ((is_allowed, remaining), { counters := counters', ttls := ttls' })

/-! ### Concrete scenario data -/

/-- `defaultSettings` with the gateway switched to SHADOW. -/
def shadowSettings : Settings := { defaultSettings with gateway_mode := GatewayMode.SHADOW }

/-- Does an `Except` hold a success? -/
def isOkE : Except ε α → Bool
  | .ok _ => true
  | .error _ => false

/-- Decidable equality of `Except` results (used to evaluate concrete
rule-matching outcomes). -/
instance instDecEqExcept [DecidableEq ε] [DecidableEq α] : DecidableEq (Except ε α) := fun x y =>
  match x, y with
  | .ok a, .ok b =>
    if h : a = b then isTrue (by rw [h]) else isFalse (by intro hh; injection hh; exact h ‹_›)
  | .error a, .error b =>
    if h : a = b then isTrue (by rw [h]) else isFalse (by intro hh; injection hh; exact h ‹_›)
  | .ok _, .error _ => isFalse (by intro hh; exact Except.noConfusion hh)
  | .error _, .ok _ => isFalse (by intro hh; exact Except.noConfusion hh)

/-- Scenario S1: a $750 refund. -/
def refundRequest : AgentRequest where
  request_id := 1
  agent_id := "agent-1"
  action_type := ActionType.refund
  target_resource := "order/42"
  parameters := [("amount", Value.vInt 750)]
  context := []

/-- An `api_call` request matching no default rule. -/
def apiCallRequest : AgentRequest where
  request_id := 2
  agent_id := "agent-1"
  action_type := ActionType.api_call
  target_resource := "svc/x"
  parameters := []
  context := []

/-- A `database_query` whose `affected_rows` parameter is the string
`"many"` (the comparison with the numeric limit raises `TypeError`). -/
def bulkStringRequest : AgentRequest where
  request_id := 3
  agent_id := "agent-1"
  action_type := ActionType.database_query
  target_resource := "db/t"
  parameters := [("affected_rows", Value.vStr "many")]
  context := []

/-- A `user_data_access` request whose `justification` context value is the
integer 5 (truthy but with no `.strip()`, so the check raises). -/
def justificationIntRequest : AgentRequest where
  request_id := 4
  agent_id := "agent-1"
  action_type := ActionType.user_data_access
  target_resource := "user/1"
  parameters := []
  context := [("justification", Value.vInt 5)]

/-- A `database_write` on `users` that first violates
`database_write_protection` and then raises inside
`bulk_operation_limit`. -/
def dbWriteUsersRequest : AgentRequest where
  request_id := 5
  agent_id := "agent-1"
  action_type := ActionType.database_write
  target_resource := "users"
  parameters := [("affected_rows", Value.vStr "many")]
  context := []

/-- A $20,000 payment whose context carries an email address. -/
def paymentPiiRequest : AgentRequest where
  request_id := 6
  agent_id := "agent-1"
  action_type := ActionType.payment
  target_resource := "invoice/9"
  parameters := [("amount", Value.vInt 20000)]
  context := [("note", Value.vStr "contact a@b.com")]

/-- The characters of the replacement text of the fallback scanner. -/
def redactedChars : List Char := ("[REDACTED]").data

/-- The original character preceding the position right after `u`, when the
scan entered `u` with `prev` before it. -/
def headPrev (prev : Option Char) (u : List Char) : Option Char :=
  if u.isEmpty then prev else u.getLast?

/-- Side condition relating the character preceding a position in the
assembled output (`prevOut`) to the character preceding it in the scanned
text (`prev`): either their word-ness agrees, or both the output-side
predecessor and the upcoming character are non-word (so no `\b` can fire
at the head in the output). -/
def Hside (prevOut prev : Option Char) (s : List Char) : Prop :=
  isWordOpt prevOut = isWordOpt prev ∨
    (isWordOpt prevOut = false ∧ isWordOpt s.head? = false)

/-- Wherever matcher `mi` could fire inside `s` (with the true preceding
characters), matcher `mj` fires too.  Trivial when `mi = mj`, and also when
`s` is `mi`-match-free. -/
def HFree (mi mj : Option Char → List Char → Option Nat) (prev : Option Char)
    (s : List Char) : Prop :=
  ∀ u v, s = u ++ v → (mi (headPrev prev u) v).isSome = true →
    (mj (headPrev prev u) v).isSome = true

/-- A handwritten deny evaluation, used to exercise the circuit breaker on
its own. -/
def denyEvaluation : PolicyEvaluationResult where
  request_id := 1
  decision := DecisionType.deny
  risk_score := 1
  risk_level := RiskLevel.critical
  matched_rules := ["refund_limit_500"]
  denial_reasons := ["over limit"]

/-- Interface bundle for a pattern core, as required by `subScan_free`. -/
structure CoreInterface (core : List Char → Option (List Char)) : Prop where
  empty : core [] = none
  inv : ∀ s rem, core s = some rem → ∃ n, 1 ≤ n ∧ n ≤ s.length ∧ rem = s.drop n ∧
      (∀ ch ∈ s.take n, ch ≠ '[' ∧ ch ≠ ']') ∧
      (isWordOpt ((s.take n).getLast?) ≠ isWordOpt rem.head?)
  trans : ∀ s n t, core s = some (s.drop n) → 1 ≤ n → n ≤ s.length →
      (isWordOpt ((s.take n).getLast?) ≠ isWordOpt t.head?) →
      (core ((s.take n) ++ t)).isSome = true
  repl : ∀ k t, k < redactedChars.length → core (redactedChars.drop k ++ t) = none

/-! ### Structural lemmas -/

/-- A successful rule-matching loop only appends to the accumulators: the
matched-rule and reason lists grow in lockstep, the risk sum grows by the
matched modifiers, and no match means no risk contribution. -/
theorem runPolicies_ok_shape (request : AgentRequest) (sp : List (String × Value))
    (ps : List PolicyRule) :
    ∀ m r c m' r' c', runPolicies request sp ps m r c = .ok (m', r', c') →
      ∃ dm dr dc, m' = m ++ dm ∧ r' = r ++ dr ∧ dm.length = dr.length ∧
        c' = c + dc ∧ (dm = [] → dc = 0) := by
  induction ps with
  | nil =>
    intro m r c m' r' c' h
    simp only [runPolicies, Except.ok.injEq, Prod.mk.injEq] at h
    exact ⟨[], [], 0, by simp [h.1], by simp [h.2.1], rfl, by simp [h.2.2], fun _ => rfl⟩
  | cons policy rest ih =>
    intro m r c m' r' c' h
    simp only [runPolicies] at h
    split at h
    · exact ih m r c m' r' c' h
    · split at h
      · exact ih m r c m' r' c' h
      · split at h
        · exact (Except.noConfusion h)
        · rename_i violation reason heq
          split at h
          · obtain ⟨dm, dr, dc, h1, h2, h3, h4, _⟩ :=
              ih (m ++ [policy.rule_id]) (r ++ [reason]) (c + policy.risk_score_modifier)
                m' r' c' h
            refine ⟨policy.rule_id :: dm, reason :: dr, policy.risk_score_modifier + dc,
              ?_, ?_, ?_, ?_, ?_⟩
            · simpa using h1
            · simpa using h2
            · simpa using h3
            · rw [h4]; ring
            · intro hdm; exact absurd hdm (by simp)
          · exact ih m r c m' r' c' h

/-! ### Claim theorems -/

/-- C1: for every evaluation that does not take the failure path, the
decision is determined from the final risk score by the configured
thresholds (defaults: block 1.0, approval 0.8): at or above the block
threshold the decision is deny under ENFORCE and shadow_logged under
SHADOW; otherwise at or above the approval threshold it is
pending_approval; otherwise allow. -/
theorem decision_determined_by_thresholds (settings : Settings)
    (san : String → String × List String) (policies : List PolicyRule)
    (request : AgentRequest) (t : ℚ)
    (h : isOkE (runPolicies request (sanitizeDict san request.parameters).1
      policies [] [] 0) = true) :
    (evaluate settings san policies request t).decision =
      (if settings.risk_score_block_threshold ≤
          (evaluate settings san policies request t).risk_score then
        (if settings.gateway_mode = GatewayMode.SHADOW then DecisionType.shadow_logged
         else DecisionType.deny)
       else if settings.risk_score_approval_threshold ≤
          (evaluate settings san policies request t).risk_score then
        DecisionType.pending_approval
       else DecisionType.allow) := by
  rcases hrp : runPolicies request (sanitizeDict san request.parameters).1
      policies [] [] 0 with e | a
  · rw [hrp] at h; simp [isOkE] at h
  · obtain ⟨m, r, c⟩ := a
    simp only [evaluate, hrp, determineDecision]

/-- C1 witness: an `api_call` that matches no default rule evaluates on the
success path and its decision follows the threshold cascade. -/
theorem decision_determined_by_thresholds_witness :
    isOkE (runPolicies apiCallRequest
      (sanitizeDict sanitizeTextFallback apiCallRequest.parameters).1
      defaultPolicies [] [] 0) = true ∧
    (evaluate defaultSettings sanitizeTextFallback defaultPolicies apiCallRequest 2).decision =
      (if defaultSettings.risk_score_block_threshold ≤
          (evaluate defaultSettings sanitizeTextFallback defaultPolicies
            apiCallRequest 2).risk_score then
        (if defaultSettings.gateway_mode = GatewayMode.SHADOW then DecisionType.shadow_logged
         else DecisionType.deny)
       else if defaultSettings.risk_score_approval_threshold ≤
          (evaluate defaultSettings sanitizeTextFallback defaultPolicies
            apiCallRequest 2).risk_score then
        DecisionType.pending_approval
       else DecisionType.allow) :=
  ⟨by decide,
   decision_determined_by_thresholds defaultSettings sanitizeTextFallback
     defaultPolicies apiCallRequest 2 (by decide)⟩

/-- C2: under SHADOW mode, `CircuitBreaker.process` always returns a
forwarded response, and deny / pending_approval evaluation decisions are
coerced to shadow_logged: SHADOW never blocks or suspends. -/
theorem shadow_mode_never_blocks (settings : Settings) (request : AgentRequest)
    (evaluation : PolicyEvaluationResult) (aid : Nat)
    (h : settings.gateway_mode = GatewayMode.SHADOW) :
    (process settings request evaluation aid).forwarded = true ∧
    ((evaluation.decision = DecisionType.deny ∨
      evaluation.decision = DecisionType.pending_approval) →
      (process settings request evaluation aid).decision = DecisionType.shadow_logged) := by
  rcases hd : evaluation.decision <;> simp [process, hd, h]

/-- C2 witness: a deny evaluation processed under SHADOW is forwarded with
decision shadow_logged. -/
theorem shadow_mode_never_blocks_witness :
    shadowSettings.gateway_mode = GatewayMode.SHADOW ∧
    (process shadowSettings refundRequest denyEvaluation 0).forwarded = true ∧
    (process shadowSettings refundRequest denyEvaluation 0).decision =
      DecisionType.shadow_logged := by
  have h := shadow_mode_never_blocks shadowSettings refundRequest denyEvaluation 0 (by decide)
  exact ⟨by decide, h.1, h.2 (Or.inl (by decide))⟩

/-- C3: every evaluation result has a risk score in [0, 1] (the clamp of
the matched modifier sum on the success path) and a risk level that is
exactly the level mapping of that score; on the failure path the score is
1.0 and the level critical. -/
theorem risk_score_bounds_and_level_mapping (settings : Settings)
    (san : String → String × List String) (policies : List PolicyRule)
    (request : AgentRequest) (t : ℚ) :
    0 ≤ (evaluate settings san policies request t).risk_score ∧
    (evaluate settings san policies request t).risk_score ≤ 1 ∧
    (evaluate settings san policies request t).risk_level =
      (if mkRat 8 10 ≤ (evaluate settings san policies request t).risk_score then
        RiskLevel.critical
       else if mkRat 5 10 ≤ (evaluate settings san policies request t).risk_score then
        RiskLevel.high
       else if mkRat 2 10 ≤ (evaluate settings san policies request t).risk_score then
        RiskLevel.medium
       else RiskLevel.low) ∧
    (isOkE (runPolicies request (sanitizeDict san request.parameters).1
        policies [] [] 0) = false →
      (evaluate settings san policies request t).risk_score = 1 ∧
      (evaluate settings san policies request t).risk_level = RiskLevel.critical) := by
  rcases hrp : runPolicies request (sanitizeDict san request.parameters).1
      policies [] [] 0 with e | a
  · refine ⟨?_, ?_, ?_, ?_⟩
    · simp only [evaluate, hrp]
      decide
    · simp only [evaluate, hrp]
      decide
    · simp only [evaluate, hrp]
      decide
    · intro _
      simp [evaluate, hrp]
  · obtain ⟨m, r, c⟩ := a
    refine ⟨?_, ?_, ?_, ?_⟩
    · simp only [evaluate, hrp]
      exact le_min (by norm_num) (le_max_left 0 c)
    · simp only [evaluate, hrp]
      exact min_le_left _ _
    · simp only [evaluate, hrp, calculateRiskLevel]
    · intro hok
      simp [isOkE] at hok

/-- C3 witness: concrete instances of the bounds, the level mapping, and
the failure-path values (at a request whose evaluation raises). -/
theorem risk_score_bounds_and_level_mapping_witness :
    (0 ≤ (evaluate defaultSettings sanitizeTextFallback defaultPolicies
        justificationIntRequest 2).risk_score ∧
     (evaluate defaultSettings sanitizeTextFallback defaultPolicies
        justificationIntRequest 2).risk_score ≤ 1) ∧
    (evaluate defaultSettings sanitizeTextFallback defaultPolicies
        justificationIntRequest 2).risk_score = 1 ∧
    (evaluate defaultSettings sanitizeTextFallback defaultPolicies
        justificationIntRequest 2).risk_level = RiskLevel.critical := by
  have h := risk_score_bounds_and_level_mapping defaultSettings sanitizeTextFallback
    defaultPolicies justificationIntRequest 2
  exact ⟨⟨h.1, h.2.1⟩, h.2.2.2 (by decide)⟩

unseal Rat.add in
/-- C4: the $750 refund under ENFORCE against the built-in default policies
matches exactly `refund_limit_500`, scores 1.0 (critical), is denied with a
reason mentioning $750 and $500, and the circuit breaker does not forward
it. -/
theorem refund_over_limit_enforce_scenario :
    (evaluate defaultSettings sanitizeTextFallback defaultPolicies refundRequest 2).matched_rules =
      ["refund_limit_500"] ∧
    (evaluate defaultSettings sanitizeTextFallback defaultPolicies refundRequest 2).risk_score = 1 ∧
    (evaluate defaultSettings sanitizeTextFallback defaultPolicies refundRequest 2).risk_level =
      RiskLevel.critical ∧
    (evaluate defaultSettings sanitizeTextFallback defaultPolicies refundRequest 2).decision =
      DecisionType.deny ∧
    (evaluate defaultSettings sanitizeTextFallback defaultPolicies refundRequest 2).denial_reasons =
      ["Amount $750 exceeds limit of $500 (Refund Amount Limit)"] ∧
    strContainsSub "Amount $750 exceeds limit of $500 (Refund Amount Limit)" "$750" = true ∧
    strContainsSub "Amount $750 exceeds limit of $500 (Refund Amount Limit)" "$500" = true ∧
    (process defaultSettings refundRequest
      (evaluate defaultSettings sanitizeTextFallback defaultPolicies refundRequest 2) 0).forwarded =
      false := by
  decide

/-- C5 counterexample: a `user_data_access` request whose `justification`
context value is the integer 5 makes the justification check raise before
any rule matched, so the failure path returns decision deny with
`matched_rules = []` — refuting the claim that deny always comes with a
non-empty `matched_rules`, even on the failure path. -/
theorem deny_with_empty_matched_rules :
    (evaluate defaultSettings sanitizeTextFallback defaultPolicies
      justificationIntRequest 2).decision = DecisionType.deny ∧
    (evaluate defaultSettings sanitizeTextFallback defaultPolicies
      justificationIntRequest 2).matched_rules = [] := by
  decide

/-- C5 amended: under the default settings, deny implies a non-empty
`denial_reasons`; `matched_rules` is additionally non-empty whenever the
evaluation did not take the failure path (on the failure path it can be
empty). -/
theorem deny_implies_reasons_nonempty (san : String → String × List String)
    (policies : List PolicyRule) (request : AgentRequest) (t : ℚ)
    (h : (evaluate defaultSettings san policies request t).decision = DecisionType.deny) :
    (evaluate defaultSettings san policies request t).denial_reasons ≠ [] ∧
    (isOkE (runPolicies request (sanitizeDict san request.parameters).1
        policies [] [] 0) = true →
      (evaluate defaultSettings san policies request t).matched_rules ≠ []) := by
  rcases hrp : runPolicies request (sanitizeDict san request.parameters).1
      policies [] [] 0 with e | a
  · obtain ⟨msg, m, r⟩ := e
    constructor
    · simp [evaluate, hrp]
    · intro hok
      simp [isOkE] at hok
  · obtain ⟨m, r, c⟩ := a
    obtain ⟨dm, dr, dc, h1, h2, h3, h4, h5⟩ :=
      runPolicies_ok_shape request (sanitizeDict san request.parameters).1
        policies [] [] 0 m r c hrp
    simp only [List.nil_append] at h1 h2
    have hm : m ≠ [] := by
      intro hm0
      have hdm : dm = [] := by rw [← h1]; exact hm0
      have hdc : dc = 0 := h5 hdm
      have hc : c = 0 := by rw [h4, hdc, add_zero]
      simp only [evaluate, hrp] at h
      rw [hc] at h
      have hmm : min (1 : ℚ) (max 0 0) = 0 := by norm_num
      rw [hmm] at h
      exact absurd h (by decide)
    have hr : r ≠ [] := by
      have hlen : r.length = m.length := by rw [h1, h2, h3]
      intro hr0
      rw [hr0] at hlen
      exact hm (List.eq_nil_of_length_eq_zero hlen.symm)
    constructor
    · simp only [evaluate, hrp]
      exact hr
    · intro _
      simp only [evaluate, hrp]
      exact hm

unseal Rat.add in
/-- C5 amended witness: the denied $750 refund has non-empty denial
reasons and non-empty matched rules. -/
theorem deny_implies_reasons_nonempty_witness :
    (evaluate defaultSettings sanitizeTextFallback defaultPolicies
      refundRequest 2).denial_reasons ≠ [] ∧
    (evaluate defaultSettings sanitizeTextFallback defaultPolicies
      refundRequest 2).matched_rules ≠ [] := by
  have h := deny_implies_reasons_nonempty sanitizeTextFallback defaultPolicies
    refundRequest 2 (by decide)
  exact ⟨h.1, h.2 (by decide)⟩

unseal Rat.add in
/-- C6 counterexample: a `database_write` on `users` with `affected_rows`
the string `"many"` first violates `database_write_protection` and then
raises inside `bulk_operation_limit`; the failure path result carries two
denial reasons, refuting the claim that a failing evaluation returns
exactly one. -/
theorem failure_after_match_two_denial_reasons :
    isOkE (runPolicies dbWriteUsersRequest
      (sanitizeDict sanitizeTextFallback dbWriteUsersRequest.parameters).1
      defaultPolicies [] [] 0) = false ∧
    (evaluate defaultSettings sanitizeTextFallback defaultPolicies
      dbWriteUsersRequest 2).decision = DecisionType.deny ∧
    (evaluate defaultSettings sanitizeTextFallback defaultPolicies
      dbWriteUsersRequest 2).risk_score = 1 ∧
    (evaluate defaultSettings sanitizeTextFallback defaultPolicies
      dbWriteUsersRequest 2).risk_level = RiskLevel.critical ∧
    (evaluate defaultSettings sanitizeTextFallback defaultPolicies
      dbWriteUsersRequest 2).denial_reasons.length = 2 := by
  decide

/-- C6 amended: `evaluation_time_ms` is always set (success or failure);
when any step raises, the result has decision deny, risk score 1.0, level
critical, and a single reason describing the failure appended to the
reasons accumulated before the failure (so at least one reason in total;
exactly one only when no rule had matched before the failure). -/
theorem evaluation_failure_result_shape (settings : Settings)
    (san : String → String × List String) (policies : List PolicyRule)
    (request : AgentRequest) (t : ℚ) :
    (evaluate settings san policies request t).evaluation_time_ms = t ∧
    ∀ e m r, runPolicies request (sanitizeDict san request.parameters).1
        policies [] [] 0 = .error (e, m, r) →
      (evaluate settings san policies request t).decision = DecisionType.deny ∧
      (evaluate settings san policies request t).risk_score = 1 ∧
      (evaluate settings san policies request t).risk_level = RiskLevel.critical ∧
      (evaluate settings san policies request t).matched_rules = m ∧
      (evaluate settings san policies request t).denial_reasons =
        r ++ ["Evaluation error: " ++ e] ∧
      (evaluate settings san policies request t).denial_reasons ≠ [] := by
  constructor
  · rcases hrp : runPolicies request (sanitizeDict san request.parameters).1
        policies [] [] 0 with e | a
    · simp [evaluate, hrp]
    · obtain ⟨m, r, c⟩ := a
      simp [evaluate, hrp]
  · intro e m r hrp
    simp [evaluate, hrp]

unseal Rat.add in
/-- C6 amended witness: the failing `database_write` carries the failure
shape, with the error reason appended after the already-recorded
violation. -/
theorem evaluation_failure_result_shape_witness :
    (evaluate defaultSettings sanitizeTextFallback defaultPolicies
      dbWriteUsersRequest 2).evaluation_time_ms = 2 ∧
    (evaluate defaultSettings sanitizeTextFallback defaultPolicies
      dbWriteUsersRequest 2).decision = DecisionType.deny ∧
    (evaluate defaultSettings sanitizeTextFallback defaultPolicies
      dbWriteUsersRequest 2).risk_score = 1 ∧
    (evaluate defaultSettings sanitizeTextFallback defaultPolicies
      dbWriteUsersRequest 2).risk_level = RiskLevel.critical ∧
    (evaluate defaultSettings sanitizeTextFallback defaultPolicies
      dbWriteUsersRequest 2).denial_reasons =
      ["Access to protected resource 'users' (Database Write Protection)",
       "Evaluation error: TypeError: unsupported operand types for >"] := by
  have h := evaluation_failure_result_shape defaultSettings sanitizeTextFallback
    defaultPolicies dbWriteUsersRequest 2
  have h2 := h.2 ("TypeError: unsupported operand types for >")
    ["database_write_protection"]
    ["Access to protected resource 'users' (Database Write Protection)"]
    (by decide)
  exact ⟨h.1, h2.1, h2.2.1, h2.2.2.1, h2.2.2.2.2.1⟩

unseal Rat.add in
/-- C7 counterexample: on the enforce-mode pending-approval path of a
$20,000 payment whose context holds an email address, the persisted
approval record and the webhook payload carry the raw request context,
not the sanitized context computed by the evaluation. -/
theorem approval_webhook_carries_raw_context :
    (evaluate defaultSettings sanitizeTextFallback defaultPolicies
      paymentPiiRequest 2).decision = DecisionType.pending_approval ∧
    (evaluate defaultSettings sanitizeTextFallback defaultPolicies
      paymentPiiRequest 2).sanitized_request = some {
        parameters := [("amount", Value.vInt 20000)],
        context := [("note", Value.vStr "contact [REDACTED]")],
        agent_id := "agent-1",
        action_type := "payment",
        target_resource := "invoice/9" } ∧
    (requestApproval 7 paymentPiiRequest
      (evaluate defaultSettings sanitizeTextFallback defaultPolicies
        paymentPiiRequest 2)).context = [("note", Value.vStr "contact a@b.com")] ∧
    (webhookPayload (requestApproval 7 paymentPiiRequest
      (evaluate defaultSettings sanitizeTextFallback defaultPolicies
        paymentPiiRequest 2))).context = [("note", Value.vStr "contact a@b.com")] ∧
    (webhookPayload (requestApproval 7 paymentPiiRequest
      (evaluate defaultSettings sanitizeTextFallback defaultPolicies
        paymentPiiRequest 2))).context ≠ [("note", Value.vStr "contact [REDACTED]")] := by
  decide

/-- C7 amended: the approval record and the webhook payload carry the
sanitized parameters (never the raw ones), but the raw request context
(not the sanitized context). -/
theorem approval_parameters_sanitized_context_raw (settings : Settings)
    (san : String → String × List String) (policies : List PolicyRule)
    (request : AgentRequest) (t : ℚ) (aid : Nat) :
    (requestApproval aid request
      (evaluate settings san policies request t)).sanitized_parameters =
      (sanitizeDict san request.parameters).1 ∧
    (requestApproval aid request
      (evaluate settings san policies request t)).context = request.context ∧
    (webhookPayload (requestApproval aid request
      (evaluate settings san policies request t))).parameters =
      (sanitizeDict san request.parameters).1 ∧
    (webhookPayload (requestApproval aid request
      (evaluate settings san policies request t))).context = request.context := by
  rcases hrp : runPolicies request (sanitizeDict san request.parameters).1
      policies [] [] 0 with e | a
  · simp [evaluate, hrp, requestApproval, webhookPayload]
  · obtain ⟨m, r, c⟩ := a
    simp [evaluate, hrp, requestApproval, webhookPayload]

/-- An association-list update stores the new value at the key. -/
theorem ilookup_iset_self (k : String) (v : Int) (l : List (String × Int)) :
    ilookup k (iset k v l) = some v := by
  induction l with
  | nil => simp [iset, ilookup]
  | cons kv rest ih =>
    obtain ⟨k', v'⟩ := kv
    by_cases h : k' = k
    · simp [iset, ilookup, h]
    · simp [iset, ilookup, h, ih]

/-- C9: the rate-limit check increments the per-agent counter, sets the
window TTL to `rate_limit_window_seconds` when the key had no expiry, and
returns `(allowed, remaining)` with `allowed = (count ≤ Q)` and
`remaining = max 0 (Q - count)` for the incremented count; on a store
error it fails open with `(true, Q)` and does not touch the store. -/
theorem rate_limit_check_contract (settings : Settings) (st : RateLimitState)
    (agent_id : String) :
    checkRateLimit settings st agent_id true =
      ((true, settings.rate_limit_requests), st) ∧
    (checkRateLimit settings st agent_id false).1 =
      (decide ((ilookup agent_id st.counters).getD 0 + 1 ≤ settings.rate_limit_requests),
       max 0 (settings.rate_limit_requests - ((ilookup agent_id st.counters).getD 0 + 1))) ∧
    ilookup agent_id (checkRateLimit settings st agent_id false).2.counters =
      some ((ilookup agent_id st.counters).getD 0 + 1) ∧
    (checkRateLimit settings st agent_id false).2.ttls =
      (if (ilookup agent_id st.ttls).getD (-1) = -1 then
        iset agent_id settings.rate_limit_window_seconds st.ttls
       else st.ttls) := by
  refine ⟨rfl, rfl, ?_, rfl⟩
  simp only [checkRateLimit, if_neg Bool.false_ne_true]
  exact ilookup_iset_self agent_id _ st.counters

/-- C10: a non-numeric `affected_rows` is not silently ignored the way a
non-numeric `amount` is: `max(affected, limit)` raises, the whole
evaluation takes the failure path, and the `database_query` with
`affected_rows = "many"` is denied at risk 1.0 / critical (with no rule
recorded as matched) instead of being allowed. -/
theorem non_numeric_affected_rows_fails_closed :
    isOkE (runPolicies bulkStringRequest
      (sanitizeDict sanitizeTextFallback bulkStringRequest.parameters).1
      defaultPolicies [] [] 0) = false ∧
    (evaluate defaultSettings sanitizeTextFallback defaultPolicies
      bulkStringRequest 2).decision = DecisionType.deny ∧
    (evaluate defaultSettings sanitizeTextFallback defaultPolicies
      bulkStringRequest 2).risk_score = 1 ∧
    (evaluate defaultSettings sanitizeTextFallback defaultPolicies
      bulkStringRequest 2).risk_level = RiskLevel.critical ∧
    (evaluate defaultSettings sanitizeTextFallback defaultPolicies
      bulkStringRequest 2).matched_rules = [] := by
  decide

/-! ### Idempotence of the fallback scanner: generic scan lemmas -/

/-- `headPrev` steps through a cons cell. -/
theorem headPrev_cons (prev : Option Char) (c : Char) (u : List Char) :
    headPrev prev (c :: u) = headPrev (some c) u := by
  cases u with
  | nil => simp [headPrev]
  | cons d u' =>
    simp only [headPrev, List.isEmpty_cons, if_neg Bool.false_ne_true]
    rw [List.getLast?_cons_cons]

/-- `headPrev` composes over list append. -/
theorem headPrev_append (prev : Option Char) (u v : List Char) :
    headPrev prev (u ++ v) = headPrev (headPrev prev u) v := by
  induction u generalizing prev with
  | nil => simp [headPrev]
  | cons c u' ih => rw [List.cons_append, headPrev_cons, headPrev_cons, ih]

/-- `HFree` restricts to the part after a prefix. -/
theorem HFree_append (mi mj : Option Char → List Char → Option Nat)
    (prev : Option Char) (u0 v0 : List Char)
    (h : HFree mi mj prev (u0 ++ v0)) : HFree mi mj (headPrev prev u0) v0 := by
  intro u v huv hmi
  have h2 := h (u0 ++ u) v (by rw [huv, List.append_assoc])
  rw [headPrev_append] at h2
  exact h2 hmi

/-- `HFree` restricts to the tail. -/
theorem HFree_tail (mi mj : Option Char → List Char → Option Nat)
    (prev : Option Char) (c : Char) (rest : List Char)
    (h : HFree mi mj prev (c :: rest)) : HFree mi mj (some c) rest := by
  have h2 := HFree_append mi mj prev [c] rest h
  simpa [headPrev] using h2

/-- `HFree` at the head position. -/
theorem HFree_head (mi mj : Option Char → List Char → Option Nat)
    (prev : Option Char) (s : List Char) (h : HFree mi mj prev s)
    (hmi : (mi prev s).isSome = true) : (mj prev s).isSome = true := by
  have h2 := h [] s rfl
  simpa [headPrev] using h2 hmi

/-- Structure of the substitution output: any output prefix either copies
the input verbatim (and output exhaustion implies input exhaustion), or
runs into a replacement block: a position `j` where input and output still
agree, the matcher fired on the remaining input, and the output continues
with `[`. -/
theorem subScan_copyStruct (matchJ : Option Char → List Char → Option Nat) (fuel : Nat) :
    ∀ (s : List Char) (prev : Option Char), s.length < fuel →
    ∀ k, k ≤ (subScan matchJ redactedChars fuel prev s).length →
      ((subScan matchJ redactedChars fuel prev s).take k = s.take k ∧
        ((subScan matchJ redactedChars fuel prev s).drop k = [] → s.drop k = [])) ∨
      ∃ j, j < k ∧ (subScan matchJ redactedChars fuel prev s).take j = s.take j ∧
        (∃ n, matchJ (headPrev prev (s.take j)) (s.drop j) = some n) ∧
        ((subScan matchJ redactedChars fuel prev s).drop j).head? = some ('[') := by
  induction fuel with
  | zero => intro s prev h; omega
  | succ fuel ih =>
    intro s prev hlen k hk
    match s with
    | [] =>
      left
      simp [subScan] at hk ⊢
    | c :: rest =>
      have hrest : rest.length < fuel := by
        simp only [List.length_cons] at hlen; omega
      rcases hm : matchJ prev (c :: rest) with _ | n
      · -- no match: keep the character
        have hout : subScan matchJ redactedChars (fuel + 1) prev (c :: rest) =
            c :: subScan matchJ redactedChars fuel (some c) rest := by
          simp only [subScan, hm]
        rw [hout] at hk ⊢
        match k, hk with
        | 0, _ => left; simp
        | k' + 1, hk =>
          have hk' : k' ≤ (subScan matchJ redactedChars fuel (some c) rest).length := by
            simpa using hk
          rcases ih rest (some c) hrest k' hk' with ⟨hl, hr⟩ | ⟨j', hj, htake, hmm, hhead⟩
          · left
            constructor
            · simp [hl]
            · intro hd; simpa using hr (by simpa using hd)
          · right
            refine ⟨j' + 1, by omega, by simp [htake], ?_, by simpa using hhead⟩
            rw [List.take_succ_cons, headPrev_cons, List.drop_succ_cons]
            exact hmm
      · by_cases hn : n = 0
        · -- degenerate zero-length match: the scan keeps the character
          have hout : subScan matchJ redactedChars (fuel + 1) prev (c :: rest) =
              c :: subScan matchJ redactedChars fuel (some c) rest := by
            simp only [subScan, hm]
            rw [if_pos hn]
          rw [hout] at hk ⊢
          match k, hk with
          | 0, _ => left; simp
          | k' + 1, hk =>
            have hk' : k' ≤ (subScan matchJ redactedChars fuel (some c) rest).length := by
              simpa using hk
            rcases ih rest (some c) hrest k' hk' with ⟨hl, hr⟩ | ⟨j', hj, htake, hmm, hhead⟩
            · left
              constructor
              · simp [hl]
              · intro hd; simpa using hr (by simpa using hd)
            · right
              refine ⟨j' + 1, by omega, by simp [htake], ?_, by simpa using hhead⟩
              rw [List.take_succ_cons, headPrev_cons, List.drop_succ_cons]
              exact hmm
        · -- replacement block
          have hout : subScan matchJ redactedChars (fuel + 1) prev (c :: rest) =
              redactedChars ++ subScan matchJ redactedChars fuel
                ((c :: rest).take n).getLast? ((c :: rest).drop n) := by
            simp only [subScan, hm]
            rw [if_neg hn]
          rw [hout] at hk ⊢
          match k, hk with
          | 0, _ => left; simp [redactedChars]
          | k' + 1, hk =>
            right
            refine ⟨0, by omega, by simp, ⟨n, ?_⟩, ?_⟩
            · simpa [headPrev] using hm
            · simp [redactedChars]

/-- A pattern attempt fails wherever its core fails, whatever the boundary. -/
theorem matchLen_none_of_core (core : List Char → Option (List Char))
    (p : Option Char) (s : List Char) (h : core s = none) :
    matchLen core p s = none := by
  simp [matchLen, h]

/-- Successful pattern attempts decompose into the boundary test and a core
success. -/
theorem matchLen_eq_some_iff (core : List Char → Option (List Char))
    (p : Option Char) (s : List Char) (n : Nat) :
    matchLen core p s = some n ↔
      atBoundary p s = true ∧ ∃ rem, core s = some rem ∧ n = s.length - rem.length := by
  by_cases hb : atBoundary p s
  · simp only [matchLen, if_pos hb, hb, true_and]
    cases hc : core s <;> simp [hc, eq_comm]
  · simp [matchLen, if_neg hb, hb]

/-- A pattern attempt succeeds on a true boundary with a successful core. -/
theorem matchLen_isSome_of (core : List Char → Option (List Char))
    (p : Option Char) (s : List Char) (rem : List Char)
    (hb : atBoundary p s = true) (hc : core s = some rem) :
    (matchLen core p s).isSome = true := by
  simp [matchLen, hb, hc]

/-- Scanning an all-failing block: if the matcher fails at every suffix
position of `u` (with any preceding character), scanning `u ++ v` reduces
to scanning `v` after `u`. -/
theorem anyMatch_append_none (m : Option Char → List Char → Option Nat) :
    ∀ (u : List Char), u ≠ [] →
    (∀ k, k < u.length → ∀ pp t, m pp (u.drop k ++ t) = none) →
    ∀ (p : Option Char) (v : List Char),
      anyMatch m p (u ++ v) = anyMatch m u.getLast? v := by
  intro u
  induction u with
  | nil => intro hu; exact absurd rfl hu
  | cons c u' ih =>
    intro _ hall p v
    have hhead := hall 0 (by simp) p v
    simp only [List.drop_zero, List.cons_append] at hhead
    rw [List.cons_append, anyMatch, hhead]
    simp only [Option.isSome_none, Bool.false_or]
    match u' with
    | [] => simp
    | d :: u'' =>
      rw [ih (by simp) ?hall2 (some c) v]
      case hall2 =>
        intro k hk pp t
        have := hall (k + 1) (by simpa using Nat.succ_lt_succ hk) pp t
        simpa using this
      rw [List.getLast?_cons_cons]

/-- `(l.take 1).head? = l.head?`. -/
theorem head?_take_one (l : List Char) : (l.take 1).head? = l.head? := by
  cases l <;> rfl

/-- `headPrev` of a non-empty prefix is its last element. -/
theorem headPrev_ne_nil (prev : Option Char) (u : List Char) (h : u ≠ []) :
    headPrev prev u = u.getLast? := by
  simp [headPrev, h]

/-- The master lemma: scanning with pattern `J` produces output free of
pattern `I` matches, provided the input was `I`-covered-by-`J`
(`HFree`, trivially true for `I = J` and for `I`-free input), the output
predecessor is compatible (`Hside`), and both patterns satisfy the
structural interface: matches are non-empty suffix-consuming, contain no
brackets, end on a word boundary, can be transplanted onto any tail with
the same boundary, and never fire inside the replacement text. -/
theorem subScan_free
    (coreI coreJ : List Char → Option (List Char))
    (hIempty : coreI [] = none)
    (hIinv : ∀ s rem, coreI s = some rem → ∃ n, 1 ≤ n ∧ n ≤ s.length ∧ rem = s.drop n ∧
        (∀ ch ∈ s.take n, ch ≠ '[' ∧ ch ≠ ']') ∧
        (isWordOpt ((s.take n).getLast?) ≠ isWordOpt rem.head?))
    (hItrans : ∀ s n t, coreI s = some (s.drop n) → 1 ≤ n → n ≤ s.length →
        (isWordOpt ((s.take n).getLast?) ≠ isWordOpt t.head?) →
        (coreI ((s.take n) ++ t)).isSome = true)
    (hIrepl : ∀ k t, k < redactedChars.length → coreI (redactedChars.drop k ++ t) = none)
    (hJinv : ∀ s rem, coreJ s = some rem → ∃ n, 1 ≤ n ∧ n ≤ s.length ∧ rem = s.drop n ∧
        (isWordOpt ((s.take n).getLast?) ≠ isWordOpt rem.head?)) :
    ∀ (fuel : Nat) (s : List Char) (prev prevOut : Option Char), s.length < fuel →
      Hside prevOut prev s →
      HFree (matchLen coreI) (matchLen coreJ) prev s →
      anyMatch (matchLen coreI) prevOut
        (subScan (matchLen coreJ) redactedChars fuel prev s) = false := by
  intro fuel
  induction fuel with
  | zero => intro s prev prevOut h; omega
  | succ fuel ih =>
    intro s prev prevOut hlen hside hfree
    match s with
    | [] =>
      have hout : subScan (matchLen coreJ) redactedChars (fuel + 1) prev [] = [] := rfl
      rw [hout]
      simp [anyMatch, matchLen_none_of_core _ _ _ hIempty]
    | c :: rest =>
      have hrest : rest.length < fuel := by
        simp only [List.length_cons] at hlen; omega
      rcases hm : matchLen coreJ prev (c :: rest) with _ | n
      · -- pattern J does not fire here: the character is kept
        have hout : subScan (matchLen coreJ) redactedChars (fuel + 1) prev (c :: rest) =
            c :: subScan (matchLen coreJ) redactedChars fuel (some c) rest := by
          simp only [subScan, hm]
        rw [hout, anyMatch]
        have htail : anyMatch (matchLen coreI) (some c)
            (subScan (matchLen coreJ) redactedChars fuel (some c) rest) = false :=
          ih rest (some c) (some c) hrest (Or.inl rfl) (HFree_tail _ _ _ _ _ hfree)
        rw [htail, Bool.or_false]
        set o₂ := subScan (matchLen coreJ) redactedChars fuel (some c) rest with ho₂
        by_contra hcon
        rw [Bool.not_eq_false] at hcon
        obtain ⟨nI, hnI⟩ := Option.isSome_iff_exists.mp hcon
        rw [matchLen_eq_some_iff] at hnI
        obtain ⟨hbout, remO, hcore, -⟩ := hnI
        rcases hside with heq | ⟨hpo, hch⟩
        · -- the word-ness of the two predecessors agrees
          have hbin : atBoundary prev (c :: rest) = true := by
            simpa [atBoundary, boundary, heq] using hbout
          obtain ⟨M, hM1, hMle, hremO, hbr, hdif⟩ := hIinv _ _ hcore
          obtain ⟨M', rfl⟩ : ∃ M', M = M' + 1 := ⟨M - 1, by omega⟩
          subst hremO
          have hMle2 : M' ≤ o₂.length := by simpa using hMle
          -- once a J-match is reconstructed on the input, the keep branch
          -- is contradicted via HFree
          have finish :
              (c :: o₂).take (M' + 1) = (c :: rest).take (M' + 1) →
              isWordOpt (((c :: rest).drop (M' + 1)).head?) =
                isWordOpt (((c :: o₂).drop (M' + 1)).head?) → False := by
            intro hconsume hnext
            have ht := hItrans (c :: o₂) (M' + 1) ((c :: rest).drop (M' + 1))
              hcore hM1 hMle (by rw [← hnext] at hdif; exact hdif)
            rw [hconsume, List.take_append_drop] at ht
            obtain ⟨rem2, hrem2⟩ := Option.isSome_iff_exists.mp ht
            have hsome := matchLen_isSome_of coreI prev (c :: rest) rem2 hbin hrem2
            have := HFree_head _ _ _ _ hfree hsome
            rw [hm] at this
            simp at this
          -- bracket contradiction: a `[` inside the consumed span
          have bracket : ∀ j, j < M' → (o₂.drop j).head? = some ('[') → False := by
            intro j hj hhd
            have hsplit : o₂.take M' = o₂.take j ++ (o₂.drop j).take (M' - j) := by
              rw [← List.take_add]
              congr 1
              omega
            cases hdj : o₂.drop j with
            | nil => rw [hdj] at hhd; simp at hhd
            | cons x tail =>
              rw [hdj] at hhd
              simp at hhd
              have hmem : '[' ∈ (c :: o₂).take (M' + 1) := by
                rw [List.take_succ_cons, hsplit, hdj]
                have htk : (x :: tail).take (M' - j) = x :: tail.take (M' - j - 1) := by
                  have h9 : M' - j = (M' - j - 1) + 1 := by omega
                  rw [h9]
                  rfl
                rw [htk, hhd]
                simp
              exact ((hbr '[' hmem).1) rfl
          rcases Nat.lt_or_ge M' o₂.length with hMA | hMB
          · -- the whole match plus its following character sit before the
            -- next replacement or inside the copied region
            rcases subScan_copyStruct (matchLen coreJ) fuel rest (some c) hrest (M' + 1)
                (by rw [← ho₂]; omega) with ⟨hl, -⟩ | ⟨j, hj, htakej, ⟨nJ, hmJ⟩, hheadj⟩
            · refine finish ?_ ?_
              · rw [List.take_succ_cons, List.take_succ_cons]
                have h8 := congrArg (List.take M') hl
                rw [List.take_take, List.take_take] at h8
                have h9 : min M' (M' + 1) = M' := by omega
                rw [h9] at h8
                rw [h8]
              · rw [List.drop_succ_cons, List.drop_succ_cons]
                have h1 : (o₂.drop M').head? = ((o₂.take (M' + 1)).drop M').head? := by
                  rw [List.drop_take]
                  have : M' + 1 - M' = 1 := by omega
                  rw [this, head?_take_one]
                have h2 : (rest.drop M').head? = ((rest.take (M' + 1)).drop M').head? := by
                  rw [List.drop_take]
                  have : M' + 1 - M' = 1 := by omega
                  rw [this, head?_take_one]
                rw [h1, h2, hl]
            · rcases Nat.lt_or_ge j M' with hjlt | hjge
              · exact bracket j hjlt hheadj
              · have hjM : j = M' := by omega
                subst hjM
                have hconsume : (c :: o₂).take (j + 1) = (c :: rest).take (j + 1) := by
                  rw [List.take_succ_cons, List.take_succ_cons, htakej]
                -- the J-match at the seam forces the input-side character
                -- after the consumed span to be non-word
                rw [matchLen_eq_some_iff] at hmJ
                obtain ⟨hbJ, -⟩ := hmJ
                have hlastEq : headPrev (some c) (rest.take j) =
                    ((c :: o₂).take (j + 1)).getLast? := by
                  rw [hconsume, List.take_succ_cons,
                    ← headPrev_cons (none) c (rest.take j),
                    headPrev_ne_nil (none) (c :: rest.take j) (by simp)]
                have houtw : isWordOpt (((c :: o₂).drop (j + 1)).head?) = false := by
                  rw [List.drop_succ_cons, hheadj]
                  decide
                have hlastw : isWordOpt (((c :: o₂).take (j + 1)).getLast?) = true := by
                  rcases Bool.eq_false_or_eq_true
                      (isWordOpt (((c :: o₂).take (j + 1)).getLast?)) with ht | hf
                  · exact ht
                  · rw [houtw] at hdif
                    exact absurd hf (by simpa using hdif)
                have hinw : isWordOpt ((rest.drop j).head?) = false := by
                  have hbJ2 : isWordOpt (headPrev (some c) (rest.take j)) ≠
                      isWordOpt ((rest.drop j).head?) := by
                    simpa [atBoundary, boundary, bne_iff_ne] using hbJ
                  rw [hlastEq, hlastw] at hbJ2
                  rcases Bool.eq_false_or_eq_true
                      (isWordOpt ((rest.drop j).head?)) with ht | hf
                  · exact absurd ht.symm hbJ2
                  · exact hf
                refine finish hconsume ?_
                rw [List.drop_succ_cons, hinw, houtw]
          · -- the match swallows the entire output
            have hMB' : M' = o₂.length := by omega
            rcases subScan_copyStruct (matchLen coreJ) fuel rest (some c) hrest M'
                (by rw [← ho₂]; omega) with ⟨hl, hr⟩ | ⟨j, hj, htakej, ⟨nJ, hmJ⟩, hheadj⟩
            · have ho₂eq : o₂ = rest.take M' := by
                rw [← hl, hMB', List.take_length]
              have hrdrop : rest.drop M' = [] := by
                apply hr
                rw [hMB', List.drop_length]
              refine finish ?_ ?_
              · rw [List.take_succ_cons, List.take_succ_cons, ho₂eq, List.take_take]
                simp
              · rw [List.drop_succ_cons, List.drop_succ_cons, hrdrop]
                have : o₂.drop M' = [] := by rw [hMB', List.drop_length]
                rw [this]
            · exact bracket j (by omega) hheadj
        · -- the output-side predecessor and the head are both non-word: no
          -- boundary can fire at the head in the output
          have hcw : isWordChar c = false := by simpa using hch
          have hcw2 : isWordOpt (some c) = false := by simp [isWordOpt, hcw]
          rw [atBoundary, boundary] at hbout
          simp only [List.head?_cons, hpo, hcw2] at hbout
          simp at hbout
      · -- pattern J fires: the match is replaced
        have hm2 := hm
        rw [matchLen_eq_some_iff] at hm2
        obtain ⟨hbJ, remJ, hcoreJ, hneq⟩ := hm2
        obtain ⟨n₀, hn01, hn0le, hremJ, hdifJ⟩ := hJinv _ _ hcoreJ
        have hnn : n = n₀ := by
          rw [hneq, hremJ, List.length_drop]
          omega
        rw [hnn] at hm
        have hn1 : ¬n₀ = 0 := by omega
        have hout : subScan (matchLen coreJ) redactedChars (fuel + 1) prev (c :: rest) =
            redactedChars ++ subScan (matchLen coreJ) redactedChars fuel
              (((c :: rest).take n₀).getLast?) ((c :: rest).drop n₀) := by
          simp only [subScan, hm]
          rw [if_neg hn1]
        rw [hout]
        rw [anyMatch_append_none (matchLen coreI) redactedChars (by decide) ?hall prevOut _]
        case hall =>
          intro k hk pp t
          exact matchLen_none_of_core _ _ _ (hIrepl k t hk)
        have hlastr : redactedChars.getLast? = some (']') := by decide
        rw [hlastr]
        apply ih ((c :: rest).drop n₀) (((c :: rest).take n₀).getLast?) (some (']'))
        · rw [List.length_drop]
          simp only [List.length_cons] at hlen ⊢
          omega
        · rcases Bool.eq_false_or_eq_true
              (isWordOpt (((c :: rest).take n₀).getLast?)) with ht | hf
          · refine Or.inr ⟨by decide, ?_⟩
            rw [hremJ] at hdifJ
            rw [ht] at hdifJ
            rcases Bool.eq_false_or_eq_true
                (isWordOpt (((c :: rest).drop n₀).head?)) with ht2 | hf2
            · exact absurd ht2.symm hdifJ
            · exact hf2
          · exact Or.inl (by rw [hf]; decide)
        · have hfr := HFree_append (matchLen coreI) (matchLen coreJ) prev
            ((c :: rest).take n₀) ((c :: rest).drop n₀)
            (by rw [List.take_append_drop]; exact hfree)
          rwa [headPrev_ne_nil _ _ ?tnil] at hfr
          case tnil =>
            obtain ⟨n', rfl⟩ : ∃ n', n₀ = n' + 1 := ⟨n₀ - 1, by omega⟩
            simp [List.take_succ_cons]

/-! ### Combinator lemmas for the pattern matchers -/

/-- Inversion for `eatDigits`: the consumed prefix is `k` digits. -/
theorem eatDigits_inv : ∀ (k : Nat) (s rem : List Char), eatDigits k s = some rem →
    ∃ u, s = u ++ rem ∧ u.length = k ∧ ∀ ch ∈ u, ch.isDigit = true := by
  intro k
  induction k with
  | zero =>
    intro s rem h
    simp [eatDigits] at h
    exact ⟨[], by simp [h], rfl, by simp⟩
  | succ k ih =>
    intro s rem h
    match s with
    | [] => simp [eatDigits] at h
    | c :: rest =>
      rw [eatDigits] at h
      by_cases hc : c.isDigit
      · rw [if_pos hc] at h
        obtain ⟨u, hu1, hu2, hu3⟩ := ih rest rem h
        refine ⟨c :: u, by simp [hu1], by simp [hu2], ?_⟩
        intro ch hch
        rcases List.mem_cons.mp hch with rfl | hmem
        · exact hc
        · exact hu3 ch hmem
      · rw [if_neg hc] at h
        exact absurd h (by simp)

/-- Construction for `eatDigits`: a block of digits is consumed exactly. -/
theorem eatDigits_build : ∀ (u t : List Char), (∀ ch ∈ u, ch.isDigit = true) →
    eatDigits u.length (u ++ t) = some t := by
  intro u
  induction u with
  | nil => intro t _; simp [eatDigits]
  | cons c u' ih =>
    intro t hall
    rw [List.length_cons, List.cons_append, eatDigits,
      if_pos (hall c (by simp))]
    exact ih t (fun ch hch => hall ch (by simp [hch]))

/-- Construction for `eatDigits` with the length given as a hypothesis. -/
theorem eatDigits_build' (k : Nat) (u t : List Char) (hk : u.length = k)
    (h : ∀ ch ∈ u, ch.isDigit = true) : eatDigits k (u ++ t) = some t := by
  subst hk
  exact eatDigits_build u t h

/-- A non-digit head makes `eatDigits (k+1)` fail. -/
theorem eatDigits_head_fail (k : Nat) (c : Char) (t : List Char)
    (hc : c.isDigit = false) : eatDigits (k + 1) (c :: t) = none := by
  simp [eatDigits, hc]

/-- Inversion for `firstSome`: a success comes from some alternative. -/
theorem firstSome_inv (f : α → Option β) : ∀ (l : List α) (y : β),
    firstSome f l = some y → ∃ x ∈ l, f x = some y := by
  intro l
  induction l with
  | nil => intro y h; simp [firstSome] at h
  | cons a l' ih =>
    intro y h
    rw [firstSome] at h
    cases hfa : f a with
    | some b =>
      rw [hfa] at h
      simp at h
      exact ⟨a, by simp, by rw [hfa, h]⟩
    | none =>
      rw [hfa] at h
      simp at h
      obtain ⟨x, hx, hfx⟩ := ih y h
      exact ⟨x, by simp [hx], hfx⟩

/-- Construction for `firstSome`: a succeeding alternative suffices. -/
theorem firstSome_build (f : α → Option β) : ∀ (l : List α) (x : α), x ∈ l →
    (f x).isSome = true → (firstSome f l).isSome = true := by
  intro l
  induction l with
  | nil => intro x hx; simp at hx
  | cons a l' ih =>
    intro x hx hfx
    rw [firstSome]
    cases hfa : f a with
    | some b => simp
    | none =>
      simp only [Option.none_orElse]
      rcases List.mem_cons.mp hx with rfl | hmem
      · rw [hfa] at hfx; simp at hfx
      · exact ih x hmem hfx

/-- Inversion for `optSep` candidates. -/
theorem optSep_inv (sep : Char → Bool) (s r : List Char) (h : r ∈ optSep sep s) :
    s = r ∨ ∃ ch, sep ch = true ∧ s = ch :: r := by
  match s with
  | [] => simp [optSep] at h; exact Or.inl h.symm
  | c :: rest =>
    rw [optSep] at h
    by_cases hc : sep c
    · rw [if_pos hc] at h
      rcases List.mem_cons.mp h with rfl | h2
      · exact Or.inr ⟨c, hc, rfl⟩
      · simp at h2; exact Or.inl h2.symm
    · rw [if_neg hc] at h
      simp at h; exact Or.inl h.symm

/-- The no-separator candidate is always offered. -/
theorem optSep_self (sep : Char → Bool) (s : List Char) : s ∈ optSep sep s := by
  match s with
  | [] => simp [optSep]
  | c :: rest =>
    rw [optSep]
    by_cases hc : sep c
    · rw [if_pos hc]; simp
    · rw [if_neg hc]; simp

/-- Consuming an offered separator is a candidate. -/
theorem optSep_cons (sep : Char → Bool) (c : Char) (t : List Char)
    (h : sep c = true) : t ∈ optSep sep (c :: t) := by
  rw [optSep, if_pos h]; simp

/-- Inversion for `optChar` candidates. -/
theorem optChar_inv (c : Char) (s r : List Char) (h : r ∈ optChar c s) :
    s = r ∨ s = c :: r := by
  match s with
  | [] => simp [optChar] at h; exact Or.inl h.symm
  | c' :: rest =>
    rw [optChar] at h
    by_cases hc : c' = c
    · rw [if_pos hc] at h
      rcases List.mem_cons.mp h with rfl | h2
      · exact Or.inr (by rw [hc])
      · simp at h2; exact Or.inl h2.symm
    · rw [if_neg hc] at h
      simp at h; exact Or.inl h.symm

/-- The no-character candidate is always offered. -/
theorem optChar_self (c : Char) (s : List Char) : s ∈ optChar c s := by
  match s with
  | [] => simp [optChar]
  | c' :: rest =>
    rw [optChar]
    by_cases hc : c' = c
    · rw [if_pos hc]; simp
    · rw [if_neg hc]; simp

/-- Consuming the offered character is a candidate. -/
theorem optChar_cons (c : Char) (t : List Char) : t ∈ optChar c (c :: t) := by
  rw [optChar, if_pos rfl]; simp

/-- Membership in `countdown`. -/
theorem mem_countdown (hi lo x : Nat) : x ∈ countdown hi lo ↔ lo ≤ x ∧ x ≤ hi := by
  simp only [countdown, List.mem_map, List.mem_range]
  constructor
  · rintro ⟨i, hi2, rfl⟩
    omega
  · rintro ⟨h1, h2⟩
    exact ⟨hi - x, by omega, by omega⟩

/-! ### Character-class and list facts used by the per-pattern lemmas -/

/-- Digits are not brackets. -/
theorem digit_no_bracket (c : Char) (h : c.isDigit = true) : c ≠ '[' ∧ c ≠ ']' := by
  constructor <;> rintro rfl <;> revert h <;> decide

/-- Digits are word characters. -/
theorem isWordChar_of_digit (c : Char) (h : c.isDigit = true) : isWordChar c = true := by
  simp [isWordChar, Char.isAlphanum, h]

/-- The trailing digit-boundary test says exactly that the next character is
not a word character. -/
theorem digitBoundaryOk_iff (t : List Char) :
    digitBoundaryOk t = true ↔ isWordOpt t.head? = false := by
  cases t with
  | nil => simp [digitBoundaryOk, isWordOpt]
  | cons c rest => simp [digitBoundaryOk, isWordOpt]

/-- A non-empty all-digit block has a digit last element. -/
theorem getLast?_digit (u : List Char) (hne : u ≠ [])
    (hd : ∀ c ∈ u, c.isDigit = true) :
    ∃ d, u.getLast? = some d ∧ d.isDigit = true :=
  ⟨u.getLast hne, List.getLast?_eq_getLast u hne, hd _ (List.getLast_mem hne)⟩

/-- If `s` splits as `u` followed by its own `n`-drop, then `u` is the
`n`-take. -/
theorem take_of_append_drop (s u : List Char) (n : Nat) (hn : n ≤ s.length)
    (h : s = u ++ s.drop n) : s.take n = u := by
  have h1 : u.length = n := by
    have h2 := congrArg List.length h
    simp only [List.length_append, List.length_drop] at h2
    omega
  conv_lhs => rw [h]
  exact List.take_left' h1

/-- `takeWhile` passes over an all-satisfying block. -/
theorem takeWhile_all_append (p : Char → Bool) :
    ∀ (u v : List Char), (∀ x ∈ u, p x = true) →
    (u ++ v).takeWhile p = u ++ v.takeWhile p := by
  intro u
  induction u with
  | nil => intro v _; simp
  | cons c u' ih =>
    intro v hall
    rw [List.cons_append, List.takeWhile_cons, if_pos (hall c (by simp)),
      ih v (fun x hx => hall x (by simp [hx])), List.cons_append]

/-- `takeWhile` stops exactly at the first failing character. -/
theorem takeWhile_append_stop (p : Char → Bool) :
    ∀ (u : List Char) (c : Char) (v : List Char), (∀ x ∈ u, p x = true) →
    p c = false → (u ++ c :: v).takeWhile p = u := by
  intro u
  induction u with
  | nil => intro c v _ hc; simp [List.takeWhile_cons, hc]
  | cons a u' ih =>
    intro c v hall hc
    rw [List.cons_append, List.takeWhile_cons, if_pos (hall a (by simp)),
      ih c v (fun x hx => hall x (by simp [hx]))]
    exact hc

/-- `dropWhile` stops exactly at the first failing character. -/
theorem dropWhile_append_stop (p : Char → Bool) :
    ∀ (u : List Char) (c : Char) (v : List Char), (∀ x ∈ u, p x = true) →
    p c = false → (u ++ c :: v).dropWhile p = c :: v := by
  intro u
  induction u with
  | nil => intro c v _ hc; simp [List.dropWhile_cons, hc]
  | cons a u' ih =>
    intro c v hall hc
    rw [List.cons_append, List.dropWhile_cons, if_pos (hall a (by simp)),
      ih c v (fun x hx => hall x (by simp [hx]))]
    exact hc

/-- The boundary test as a propositional inequality. -/
theorem boundary_iff_ne (p q : Option Char) :
    boundary p q = true ↔ isWordOpt p ≠ isWordOpt q := by
  simp [boundary, bne_iff_ne]

/-- The replacement text, spelled out. -/
theorem redactedChars_eq :
    redactedChars = ['[', 'R', 'E', 'D', 'A', 'C', 'T', 'E', 'D', ']'] := rfl

/-! ### The SSN pattern: interface lemmas -/

/-- A successful `ssnCore` parse decomposes the input. -/
theorem ssnCore_decomp (s rem : List Char) (h : ssnCore s = some rem) :
    ∃ u3 u2 u4, s = u3 ++ '-' :: (u2 ++ '-' :: (u4 ++ rem)) ∧
      u3.length = 3 ∧ u2.length = 2 ∧ u4.length = 4 ∧
      (∀ c ∈ u3, c.isDigit = true) ∧ (∀ c ∈ u2, c.isDigit = true) ∧
      (∀ c ∈ u4, c.isDigit = true) ∧ digitBoundaryOk rem = true := by
  rw [ssnCore] at h
  cases h1 : eatDigits 3 s with
  | none => rw [h1] at h; simp at h
  | some s1 =>
    rw [h1] at h
    simp only [Option.bind_eq_bind, Option.some_bind] at h
    split at h
    case h_2 => simp at h
    case h_1 s2 =>
      cases h2 : eatDigits 2 s2 with
      | none => rw [h2] at h; simp at h
      | some s3 =>
        rw [h2] at h
        simp only [Option.some_bind] at h
        split at h
        case h_2 => simp at h
        case h_1 s4 =>
          cases h3 : eatDigits 4 s4 with
          | none => rw [h3] at h; simp at h
          | some s5 =>
            rw [h3] at h
            simp only [Option.some_bind] at h
            by_cases hb : digitBoundaryOk s5
            · rw [if_pos hb] at h
              simp only [Option.some_inj] at h
              subst h
              obtain ⟨u3, hs, hl3, hd3⟩ := eatDigits_inv 3 s _ h1
              obtain ⟨u2, hs2, hl2, hd2⟩ := eatDigits_inv 2 s2 _ h2
              obtain ⟨u4, hs4, hl4, hd4⟩ := eatDigits_inv 4 s4 _ h3
              exact ⟨u3, u2, u4, by rw [hs, hs2, hs4], hl3, hl2, hl4, hd3, hd2, hd4, hb⟩
            · rw [if_neg hb] at h; simp at h

/-- `ssnCore` accepts any well-shaped block before any tail that starts at a
non-word character. -/
theorem ssnCore_build (u3 u2 u4 t : List Char)
    (hl3 : u3.length = 3) (hl2 : u2.length = 2) (hl4 : u4.length = 4)
    (hd3 : ∀ c ∈ u3, c.isDigit = true) (hd2 : ∀ c ∈ u2, c.isDigit = true)
    (hd4 : ∀ c ∈ u4, c.isDigit = true) (hb : digitBoundaryOk t = true) :
    ssnCore (u3 ++ '-' :: (u2 ++ '-' :: (u4 ++ t))) = some t := by
  rw [ssnCore]
  rw [eatDigits_build' 3 u3 _ hl3 hd3]
  simp only [Option.bind_eq_bind, Option.some_bind]
  rw [eatDigits_build' 2 u2 _ hl2 hd2]
  simp only [Option.some_bind]
  rw [eatDigits_build' 4 u4 _ hl4 hd4]
  simp only [Option.some_bind]
  rw [if_pos hb]

/-- `ssnCore` rejects the empty input. -/
theorem ssnCore_empty : ssnCore [] = none := rfl

/-- `ssnCore` fails on a non-digit head. -/
theorem ssnCore_head_fail (c : Char) (t : List Char) (hc : c.isDigit = false) :
    ssnCore (c :: t) = none := by
  rw [ssnCore, eatDigits_head_fail 2 c t hc]
  rfl

/-- Interface (inversion): an SSN match consumes a non-empty, bracket-free
prefix ending on a word-boundary difference. -/
theorem ssn_inv : ∀ s rem, ssnCore s = some rem → ∃ n, 1 ≤ n ∧ n ≤ s.length ∧
    rem = s.drop n ∧ (∀ ch ∈ s.take n, ch ≠ '[' ∧ ch ≠ ']') ∧
    (isWordOpt ((s.take n).getLast?) ≠ isWordOpt rem.head?) := by
  intro s rem h
  obtain ⟨u3, u2, u4, hs, hl3, hl2, hl4, hd3, hd2, hd4, hb⟩ := ssnCore_decomp s rem h
  have hcons : s = (u3 ++ '-' :: (u2 ++ '-' :: u4)) ++ rem := by
    rw [hs]; simp
  have hclen : (u3 ++ '-' :: (u2 ++ '-' :: u4)).length = 11 := by
    simp [hl3, hl2, hl4]
  have hslen : s.length = 11 + rem.length := by
    rw [hcons, List.length_append, hclen]
  have htake : s.take 11 = u3 ++ '-' :: (u2 ++ '-' :: u4) := by
    rw [hcons]; exact List.take_left' hclen
  have hdrop : s.drop 11 = rem := by
    rw [hcons]; exact List.drop_left' hclen
  refine ⟨11, by omega, by omega, hdrop.symm, ?_, ?_⟩
  · intro ch hch
    rw [htake] at hch
    simp only [List.mem_append, List.mem_cons] at hch
    rcases hch with h1 | rfl | h1 | rfl | h1
    · exact digit_no_bracket ch (hd3 ch h1)
    · exact ⟨by decide, by decide⟩
    · exact digit_no_bracket ch (hd2 ch h1)
    · exact ⟨by decide, by decide⟩
    · exact digit_no_bracket ch (hd4 ch h1)
  · rw [htake]
    obtain ⟨d, hdl, hdd⟩ := getLast?_digit u4 (by rintro rfl; simp at hl4) hd4
    have hre : u3 ++ '-' :: (u2 ++ '-' :: u4) = (u3 ++ '-' :: (u2 ++ ['-'])) ++ u4 := by
      simp
    rw [hre, List.getLast?_append_of_ne_nil _ (by rintro rfl; simp at hl4), hdl,
      (digitBoundaryOk_iff rem).mp hb]
    simp [isWordOpt, isWordChar_of_digit d hdd]

/-- Interface (transplant): an SSN match re-fires on any tail with the same
boundary difference. -/
theorem ssn_trans : ∀ s n t, ssnCore s = some (s.drop n) → 1 ≤ n → n ≤ s.length →
    (isWordOpt ((s.take n).getLast?) ≠ isWordOpt t.head?) →
    (ssnCore ((s.take n) ++ t)).isSome = true := by
  intro s n t h hn1 hn2 hbd
  obtain ⟨u3, u2, u4, hs, hl3, hl2, hl4, hd3, hd2, hd4, hb⟩ := ssnCore_decomp s _ h
  have hcons : s = (u3 ++ '-' :: (u2 ++ '-' :: u4)) ++ s.drop n := hs.trans (by simp)
  have hclen : (u3 ++ '-' :: (u2 ++ '-' :: u4)).length = 11 := by
    simp [hl3, hl2, hl4]
  have hn11 : n = 11 := by
    have h2 := congrArg List.length hcons
    rw [List.length_append, hclen, List.length_drop] at h2
    omega
  have htake : s.take n = u3 ++ '-' :: (u2 ++ '-' :: u4) := by
    rw [hn11]
    conv_lhs => rw [hcons]
    exact List.take_left' hclen
  rw [htake] at hbd ⊢
  obtain ⟨d, hdl, hdd⟩ := getLast?_digit u4 (by rintro rfl; simp at hl4) hd4
  have hre : u3 ++ '-' :: (u2 ++ '-' :: u4) = (u3 ++ '-' :: (u2 ++ ['-'])) ++ u4 := by
    simp
  rw [hre, List.getLast?_append_of_ne_nil _ (by rintro rfl; simp at hl4), hdl] at hbd
  have hw : isWordOpt (some d) = true := by
    simp [isWordOpt, isWordChar_of_digit d hdd]
  rw [hw] at hbd
  have hbt : digitBoundaryOk t = true := by
    rw [digitBoundaryOk_iff]
    cases hvt : isWordOpt t.head? with
    | false => rfl
    | true => rw [hvt] at hbd; exact absurd rfl hbd
  have hbuild := ssnCore_build u3 u2 u4 t hl3 hl2 hl4 hd3 hd2 hd4 hbt
  have hassoc : u3 ++ '-' :: (u2 ++ '-' :: u4) ++ t = u3 ++ '-' :: (u2 ++ '-' :: (u4 ++ t)) := by
    simp
  rw [hassoc, hbuild]
  rfl

/-- Interface (replacement freedom): the SSN pattern never fires inside the
replacement text. -/
theorem ssn_repl : ∀ k t, k < redactedChars.length →
    ssnCore (redactedChars.drop k ++ t) = none := by
  intro k t hk
  rw [redactedChars_eq] at hk
  simp only [List.length_cons, List.length_nil] at hk
  interval_cases k
  · exact ssnCore_head_fail '[' _ (by decide)
  · exact ssnCore_head_fail 'R' _ (by decide)
  · exact ssnCore_head_fail 'E' _ (by decide)
  · exact ssnCore_head_fail 'D' _ (by decide)
  · exact ssnCore_head_fail 'A' _ (by decide)
  · exact ssnCore_head_fail 'C' _ (by decide)
  · exact ssnCore_head_fail 'T' _ (by decide)
  · exact ssnCore_head_fail 'E' _ (by decide)
  · exact ssnCore_head_fail 'D' _ (by decide)
  · exact ssnCore_head_fail ']' _ (by decide)

/-! ### Generic assembly lemmas for the substitution pipeline -/

/-- A match-free string stays match-free position by position. -/
theorem anyMatch_false_all (m : Option Char → List Char → Option Nat) :
    ∀ (u : List Char) (prev : Option Char) (v : List Char),
    anyMatch m prev (u ++ v) = false → (m (headPrev prev u) v).isSome = false := by
  intro u
  induction u with
  | nil =>
    intro prev v hfree
    simp only [List.nil_append] at hfree
    rw [show headPrev prev [] = prev from by simp [headPrev]]
    cases v with
    | nil => rw [anyMatch] at hfree; exact hfree
    | cons c rest =>
      rw [anyMatch] at hfree
      exact (Bool.or_eq_false_iff.mp hfree).1
  | cons c u' ih =>
    intro prev v hfree
    rw [List.cons_append, anyMatch] at hfree
    rw [headPrev_cons]
    exact ih (some c) v (Bool.or_eq_false_iff.mp hfree).2

/-- The weak inversion required of the scanning pattern. -/
theorem CoreInterface.weakInv {core : List Char → Option (List Char)}
    (hi : CoreInterface core) :
    ∀ s rem, core s = some rem → ∃ n, 1 ≤ n ∧ n ≤ s.length ∧ rem = s.drop n ∧
      (isWordOpt ((s.take n).getLast?) ≠ isWordOpt rem.head?) := by
  intro s rem h
  obtain ⟨n, h1, h2, h3, _, h5⟩ := hi.inv s rem h
  exact ⟨n, h1, h2, h3, h5⟩

/-- One substitution pass for a pattern leaves its own output free of that
pattern. -/
theorem fallbackStep_clears {core : List Char → Option (List Char)}
    (hi : CoreInterface core) (e : String) (acc : String × List String) :
    anyMatch (matchLen core) none (fallbackStep (matchLen core) e acc).1.data = false := by
  rw [fallbackStep]
  by_cases h : anyMatch (matchLen core) none acc.1.data = true
  · rw [if_pos h]
    show anyMatch (matchLen core) none (subAll (matchLen core) redactedChars acc.1.data) = false
    rw [subAll]
    exact subScan_free core core hi.empty hi.inv hi.trans hi.repl hi.weakInv
      (acc.1.data.length + 1) acc.1.data none none (Nat.lt_succ_self _)
      (Or.inl rfl) (fun u v _ hin => hin)
  · rw [if_neg h]
    exact Bool.not_eq_true _ ▸ Bool.of_not_eq_true h

/-- A substitution pass for one pattern preserves freedom from another
pattern. -/
theorem fallbackStep_preserves {coreI coreJ : List Char → Option (List Char)}
    (hiI : CoreInterface coreI) (hiJ : CoreInterface coreJ) (e : String)
    (acc : String × List String)
    (hfree : anyMatch (matchLen coreI) none acc.1.data = false) :
    anyMatch (matchLen coreI) none
      (fallbackStep (matchLen coreJ) e acc).1.data = false := by
  rw [fallbackStep]
  by_cases h : anyMatch (matchLen coreJ) none acc.1.data = true
  · rw [if_pos h]
    show anyMatch (matchLen coreI) none
      (subAll (matchLen coreJ) redactedChars acc.1.data) = false
    rw [subAll]
    refine subScan_free coreI coreJ hiI.empty hiI.inv hiI.trans hiI.repl hiJ.weakInv
      (acc.1.data.length + 1) acc.1.data none none (Nat.lt_succ_self _)
      (Or.inl rfl) ?_
    intro u v huv hin
    have hfalse := anyMatch_false_all (matchLen coreI) u none v (huv ▸ hfree)
    rw [hin] at hfalse
    exact absurd hfalse (by simp)
  · rw [if_neg h]
    exact hfree

/-- A pattern with no match leaves the accumulator untouched. -/
theorem fallbackStep_id (m : Option Char → List Char → Option Nat) (e : String)
    (acc : String × List String)
    (hfree : anyMatch m none acc.1.data = false) :
    fallbackStep m e acc = acc := by
  rw [fallbackStep, if_neg (by rw [hfree]; exact Bool.false_ne_true)]

/-! ### The credit-card pattern: interface lemmas -/

/-- Credit-card separators are not brackets. -/
theorem ccSep_no_bracket (c : Char) (h : ccSep c = true) : c ≠ '[' ∧ c ≠ ']' := by
  constructor <;> rintro rfl <;> revert h <;> decide

/-- An `optSep` candidate is reached by consuming an optional separator
block. -/
theorem optSep_split (sep : Char → Bool) (a b : List Char) (h : b ∈ optSep sep a) :
    ∃ v, a = v ++ b ∧ (v = [] ∨ ∃ c, sep c = true ∧ v = [c]) := by
  rcases optSep_inv sep a b h with h5 | ⟨c, hc, h5⟩
  · exact ⟨[], by simp [h5], Or.inl rfl⟩
  · exact ⟨[c], by simp [h5], Or.inr ⟨c, hc, rfl⟩⟩

/-- A successful `ccCore` parse decomposes the input into four digit groups
with optional separators. -/
theorem ccCore_decomp (s rem : List Char) (h : ccCore s = some rem) :
    ∃ u1 v1 u2 v2 u3 v3 u4,
      s = u1 ++ (v1 ++ (u2 ++ (v2 ++ (u3 ++ (v3 ++ (u4 ++ rem)))))) ∧
      u1.length = 4 ∧ u2.length = 4 ∧ u3.length = 4 ∧ u4.length = 4 ∧
      (∀ c ∈ u1, c.isDigit = true) ∧ (∀ c ∈ u2, c.isDigit = true) ∧
      (∀ c ∈ u3, c.isDigit = true) ∧ (∀ c ∈ u4, c.isDigit = true) ∧
      (v1 = [] ∨ ∃ c, ccSep c = true ∧ v1 = [c]) ∧
      (v2 = [] ∨ ∃ c, ccSep c = true ∧ v2 = [c]) ∧
      (v3 = [] ∨ ∃ c, ccSep c = true ∧ v3 = [c]) ∧
      digitBoundaryOk rem = true := by
  rw [ccCore] at h
  cases h1 : eatDigits 4 s with
  | none => rw [h1] at h; simp at h
  | some a =>
    rw [h1] at h
    simp only [Option.bind_eq_bind, Option.some_bind] at h
    obtain ⟨b, hbmem, hb⟩ := firstSome_inv _ _ _ h
    cases h2 : eatDigits 4 b with
    | none => rw [h2] at hb; simp at hb
    | some c2 =>
      rw [h2] at hb
      simp only [Option.bind_eq_bind, Option.some_bind] at hb
      obtain ⟨d, hdmem, hd⟩ := firstSome_inv _ _ _ hb
      cases h3 : eatDigits 4 d with
      | none => rw [h3] at hd; simp at hd
      | some e2 =>
        rw [h3] at hd
        simp only [Option.bind_eq_bind, Option.some_bind] at hd
        obtain ⟨f, hfmem, hf⟩ := firstSome_inv _ _ _ hd
        cases h4 : eatDigits 4 f with
        | none => rw [h4] at hf; simp at hf
        | some g =>
          rw [h4] at hf
          simp only [Option.bind_eq_bind, Option.some_bind] at hf
          by_cases hbd : digitBoundaryOk g
          · rw [if_pos hbd] at hf
            simp only [Option.some_inj] at hf
            subst hf
            obtain ⟨u1, hsu, hl1, hdg1⟩ := eatDigits_inv 4 s a h1
            obtain ⟨u2, hbu, hl2, hdg2⟩ := eatDigits_inv 4 b c2 h2
            obtain ⟨u3, hdu, hl3, hdg3⟩ := eatDigits_inv 4 d e2 h3
            obtain ⟨u4, hfu, hl4, hdg4⟩ := eatDigits_inv 4 f g h4
            obtain ⟨v1, hav, hp1⟩ := optSep_split ccSep a b hbmem
            obtain ⟨v2, hcv, hp2⟩ := optSep_split ccSep c2 d hdmem
            obtain ⟨v3, hev, hp3⟩ := optSep_split ccSep e2 f hfmem
            exact ⟨u1, v1, u2, v2, u3, v3, u4,
              by rw [hsu, hav, hbu, hcv, hdu, hev, hfu],
              hl1, hl2, hl3, hl4, hdg1, hdg2, hdg3, hdg4, hp1, hp2, hp3, hbd⟩
          · rw [if_neg hbd] at hf; simp at hf

/-- `ccCore` accepts any well-shaped block before any tail that starts at a
non-word character. -/
theorem ccCore_build (u1 v1 u2 v2 u3 v3 u4 t : List Char)
    (hl1 : u1.length = 4) (hl2 : u2.length = 4) (hl3 : u3.length = 4)
    (hl4 : u4.length = 4)
    (hdg1 : ∀ c ∈ u1, c.isDigit = true) (hdg2 : ∀ c ∈ u2, c.isDigit = true)
    (hdg3 : ∀ c ∈ u3, c.isDigit = true) (hdg4 : ∀ c ∈ u4, c.isDigit = true)
    (hp1 : v1 = [] ∨ ∃ c, ccSep c = true ∧ v1 = [c])
    (hp2 : v2 = [] ∨ ∃ c, ccSep c = true ∧ v2 = [c])
    (hp3 : v3 = [] ∨ ∃ c, ccSep c = true ∧ v3 = [c])
    (hb : digitBoundaryOk t = true) :
    (ccCore (u1 ++ (v1 ++ (u2 ++ (v2 ++ (u3 ++ (v3 ++ (u4 ++ t)))))))).isSome = true := by
  rw [ccCore]
  rw [eatDigits_build' 4 u1 _ hl1 hdg1]
  simp only [Option.bind_eq_bind, Option.some_bind]
  apply firstSome_build _ _ (u2 ++ (v2 ++ (u3 ++ (v3 ++ (u4 ++ t)))))
  · rcases hp1 with rfl | ⟨c, hc, rfl⟩
    · simpa using optSep_self ccSep _
    · simpa using optSep_cons ccSep c _ hc
  · rw [eatDigits_build' 4 u2 _ hl2 hdg2]
    simp only [Option.bind_eq_bind, Option.some_bind]
    apply firstSome_build _ _ (u3 ++ (v3 ++ (u4 ++ t)))
    · rcases hp2 with rfl | ⟨c, hc, rfl⟩
      · simpa using optSep_self ccSep _
      · simpa using optSep_cons ccSep c _ hc
    · rw [eatDigits_build' 4 u3 _ hl3 hdg3]
      simp only [Option.bind_eq_bind, Option.some_bind]
      apply firstSome_build _ _ (u4 ++ t)
      · rcases hp3 with rfl | ⟨c, hc, rfl⟩
        · simpa using optSep_self ccSep _
        · simpa using optSep_cons ccSep c _ hc
      · rw [eatDigits_build' 4 u4 _ hl4 hdg4]
        simp only [Option.bind_eq_bind, Option.some_bind, if_pos hb]
        rfl

/-- A decomposition `s = C ++ rem` with a bracket-free `C` ending in a word
character, and a non-word continuation, yields the interface inversion. -/
theorem inv_of_decomp (s C rem : List Char) (hs : s = C ++ rem) (hne : C ≠ [])
    (hnb : ∀ ch ∈ C, ch ≠ '[' ∧ ch ≠ ']')
    (hlast : ∃ d, C.getLast? = some d ∧ isWordChar d = true)
    (hb : isWordOpt rem.head? = false) :
    ∃ n, 1 ≤ n ∧ n ≤ s.length ∧ rem = s.drop n ∧
      (∀ ch ∈ s.take n, ch ≠ '[' ∧ ch ≠ ']') ∧
      (isWordOpt ((s.take n).getLast?) ≠ isWordOpt rem.head?) := by
  obtain ⟨d, hdl, hdw⟩ := hlast
  have hlen : s.length = C.length + rem.length := by rw [hs, List.length_append]
  have htake : s.take C.length = C := by rw [hs]; exact List.take_left' rfl
  have hdrop : s.drop C.length = rem := by rw [hs]; exact List.drop_left' rfl
  have hCpos : 1 ≤ C.length := by
    cases C with
    | nil => exact absurd rfl hne
    | cons c cs => simp
  refine ⟨C.length, hCpos, by omega, hdrop.symm, ?_, ?_⟩
  · intro ch hch
    rw [htake] at hch
    exact hnb ch hch
  · rw [htake, hdl, hb]
    simp [isWordOpt, hdw]

/-- From a word-character match end, a boundary difference forces a
non-word continuation. -/
theorem tail_nonword (C t : List Char) (d : Char) (hdl : C.getLast? = some d)
    (hdw : isWordChar d = true)
    (hbd : isWordOpt C.getLast? ≠ isWordOpt t.head?) :
    isWordOpt t.head? = false := by
  rw [hdl] at hbd
  have hw : isWordOpt (some d) = true := by simp [isWordOpt, hdw]
  rw [hw] at hbd
  cases hvt : isWordOpt t.head? with
  | false => rfl
  | true => rw [hvt] at hbd; exact absurd rfl hbd

/-- The SSN interface bundle. -/
theorem ssn_interface : CoreInterface ssnCore :=
  ⟨ssnCore_empty, ssn_inv, ssn_trans, ssn_repl⟩

/-- `ccCore` rejects the empty input. -/
theorem ccCore_empty : ccCore [] = none := rfl

/-- `ccCore` fails on a non-digit head. -/
theorem ccCore_head_fail (c : Char) (t : List Char) (hc : c.isDigit = false) :
    ccCore (c :: t) = none := by
  rw [ccCore, eatDigits_head_fail 3 c t hc]
  rfl

/-- Interface (inversion) for the credit-card pattern. -/
theorem cc_inv : ∀ s rem, ccCore s = some rem → ∃ n, 1 ≤ n ∧ n ≤ s.length ∧
    rem = s.drop n ∧ (∀ ch ∈ s.take n, ch ≠ '[' ∧ ch ≠ ']') ∧
    (isWordOpt ((s.take n).getLast?) ≠ isWordOpt rem.head?) := by
  intro s rem h
  obtain ⟨u1, v1, u2, v2, u3, v3, u4, hs, hl1, hl2, hl3, hl4,
    hdg1, hdg2, hdg3, hdg4, hp1, hp2, hp3, hbd⟩ := ccCore_decomp s rem h
  have hu4 : u4 ≠ [] := by rintro rfl; simp at hl4
  refine inv_of_decomp s (u1 ++ (v1 ++ (u2 ++ (v2 ++ (u3 ++ (v3 ++ u4)))))) rem
    (hs.trans (by simp)) ?_ ?_ ?_ ((digitBoundaryOk_iff rem).mp hbd)
  · intro heq
    rcases List.append_eq_nil.mp heq with ⟨h1, _⟩
    rw [h1] at hl1
    simp at hl1
  · intro ch hch
    simp only [List.mem_append] at hch
    rcases hch with h5 | h5 | h5 | h5 | h5 | h5 | h5
    · exact digit_no_bracket ch (hdg1 ch h5)
    · rcases hp1 with rfl | ⟨c, hc, rfl⟩
      · simp at h5
      · rw [List.mem_singleton] at h5
        exact h5 ▸ ccSep_no_bracket c hc
    · exact digit_no_bracket ch (hdg2 ch h5)
    · rcases hp2 with rfl | ⟨c, hc, rfl⟩
      · simp at h5
      · rw [List.mem_singleton] at h5
        exact h5 ▸ ccSep_no_bracket c hc
    · exact digit_no_bracket ch (hdg3 ch h5)
    · rcases hp3 with rfl | ⟨c, hc, rfl⟩
      · simp at h5
      · rw [List.mem_singleton] at h5
        exact h5 ▸ ccSep_no_bracket c hc
    · exact digit_no_bracket ch (hdg4 ch h5)
  · obtain ⟨d, hdl, hdd⟩ := getLast?_digit u4 hu4 hdg4
    refine ⟨d, ?_, isWordChar_of_digit d hdd⟩
    rw [show u1 ++ (v1 ++ (u2 ++ (v2 ++ (u3 ++ (v3 ++ u4))))) =
      (u1 ++ v1 ++ u2 ++ v2 ++ u3 ++ v3) ++ u4 from by simp,
      List.getLast?_append_of_ne_nil _ hu4, hdl]

/-- Interface (transplant) for the credit-card pattern. -/
theorem cc_trans : ∀ s n t, ccCore s = some (s.drop n) → 1 ≤ n → n ≤ s.length →
    (isWordOpt ((s.take n).getLast?) ≠ isWordOpt t.head?) →
    (ccCore ((s.take n) ++ t)).isSome = true := by
  intro s n t h hn1 hn2 hbd
  obtain ⟨u1, v1, u2, v2, u3, v3, u4, hs, hl1, hl2, hl3, hl4,
    hdg1, hdg2, hdg3, hdg4, hp1, hp2, hp3, hbdr⟩ := ccCore_decomp s _ h
  have hu4 : u4 ≠ [] := by rintro rfl; simp at hl4
  have hcons : s = (u1 ++ (v1 ++ (u2 ++ (v2 ++ (u3 ++ (v3 ++ u4)))))) ++ s.drop n :=
    hs.trans (by simp)
  have htake := take_of_append_drop s _ n hn2 hcons
  rw [htake] at hbd ⊢
  obtain ⟨d, hdl, hdd⟩ := getLast?_digit u4 hu4 hdg4
  have hC4 : (u1 ++ (v1 ++ (u2 ++ (v2 ++ (u3 ++ (v3 ++ u4)))))).getLast? = some d := by
    rw [show u1 ++ (v1 ++ (u2 ++ (v2 ++ (u3 ++ (v3 ++ u4))))) =
      (u1 ++ v1 ++ u2 ++ v2 ++ u3 ++ v3) ++ u4 from by simp,
      List.getLast?_append_of_ne_nil _ hu4, hdl]
  have ht := tail_nonword _ t d hC4 (isWordChar_of_digit d hdd) (hC4 ▸ hbd)
  have hbt : digitBoundaryOk t = true := (digitBoundaryOk_iff t).mpr ht
  rw [show (u1 ++ (v1 ++ (u2 ++ (v2 ++ (u3 ++ (v3 ++ u4)))))) ++ t =
    u1 ++ (v1 ++ (u2 ++ (v2 ++ (u3 ++ (v3 ++ (u4 ++ t)))))) from by simp]
  exact ccCore_build u1 v1 u2 v2 u3 v3 u4 t hl1 hl2 hl3 hl4
    hdg1 hdg2 hdg3 hdg4 hp1 hp2 hp3 hbt

/-- Interface (replacement freedom) for the credit-card pattern. -/
theorem cc_repl : ∀ k t, k < redactedChars.length →
    ccCore (redactedChars.drop k ++ t) = none := by
  intro k t hk
  rw [redactedChars_eq] at hk
  simp only [List.length_cons, List.length_nil] at hk
  interval_cases k
  · exact ccCore_head_fail '[' _ (by decide)
  · exact ccCore_head_fail 'R' _ (by decide)
  · exact ccCore_head_fail 'E' _ (by decide)
  · exact ccCore_head_fail 'D' _ (by decide)
  · exact ccCore_head_fail 'A' _ (by decide)
  · exact ccCore_head_fail 'C' _ (by decide)
  · exact ccCore_head_fail 'T' _ (by decide)
  · exact ccCore_head_fail 'E' _ (by decide)
  · exact ccCore_head_fail 'D' _ (by decide)
  · exact ccCore_head_fail ']' _ (by decide)

/-- The credit-card interface bundle. -/
theorem cc_interface : CoreInterface ccCore :=
  ⟨ccCore_empty, cc_inv, cc_trans, cc_repl⟩

/-! ### The IP-address pattern: interface lemmas -/

/-- Inversion for `digitRunCandidates`: a candidate remainder follows one to
three digits. -/
theorem digitRunCandidates_inv (s r : List Char) (h : r ∈ digitRunCandidates s) :
    ∃ u, s = u ++ r ∧ 1 ≤ u.length ∧ u.length ≤ 3 ∧ ∀ c ∈ u, c.isDigit = true := by
  match s with
  | [] => simp [digitRunCandidates] at h
  | a :: rest =>
    by_cases ha : a.isDigit
    case neg => simp [digitRunCandidates, ha] at h
    case pos =>
    match rest with
    | [] =>
      simp [digitRunCandidates, ha] at h
      exact ⟨[a], by simp [h], by simp, by simp, by simp [ha]⟩
    | b :: rest2 =>
      by_cases hb : b.isDigit
      case neg =>
        simp [digitRunCandidates, ha, hb] at h
        exact ⟨[a], by simp [h], by simp, by simp, by simp [ha]⟩
      case pos =>
      match rest2 with
      | [] =>
        simp [digitRunCandidates, ha, hb] at h
        rcases h with rfl | rfl
        · exact ⟨[a, b], by simp, by simp, by simp, by simp [ha, hb]⟩
        · exact ⟨[a], by simp, by simp, by simp, by simp [ha]⟩
      | c :: rest3 =>
        by_cases hc : c.isDigit
        case neg =>
          simp [digitRunCandidates, ha, hb, hc] at h
          rcases h with rfl | rfl
          · exact ⟨[a, b], by simp, by simp, by simp, by simp [ha, hb]⟩
          · exact ⟨[a], by simp, by simp, by simp, by simp [ha]⟩
        case pos =>
          simp [digitRunCandidates, ha, hb, hc] at h
          rcases h with rfl | rfl | rfl
          · exact ⟨[a, b, c], by simp, by simp, by simp, by simp [ha, hb, hc]⟩
          · exact ⟨[a, b], by simp, by simp, by simp, by simp [ha, hb]⟩
          · exact ⟨[a], by simp, by simp, by simp, by simp [ha]⟩

/-- Construction for `digitRunCandidates`: the remainder after a one-to-three
digit block is always offered. -/
theorem digitRunCandidates_build (u t : List Char) (h1 : 1 ≤ u.length)
    (h3 : u.length ≤ 3) (hd : ∀ c ∈ u, c.isDigit = true) :
    t ∈ digitRunCandidates (u ++ t) := by
  match u with
  | [] => simp at h1
  | [a] =>
    have ha := hd a (by simp)
    match t with
    | [] => simp [digitRunCandidates, ha]
    | b :: rest2 =>
      by_cases hb : b.isDigit
      · match rest2 with
        | [] => simp [digitRunCandidates, ha, hb]
        | c :: rest3 =>
          by_cases hc : c.isDigit
          · simp [digitRunCandidates, ha, hb, hc]
          · simp [digitRunCandidates, ha, hb, hc]
      · simp [digitRunCandidates, ha, hb]
  | [a, b] =>
    have ha := hd a (by simp)
    have hb := hd b (by simp)
    match t with
    | [] => simp [digitRunCandidates, ha, hb]
    | c :: rest3 =>
      by_cases hc : c.isDigit
      · simp [digitRunCandidates, ha, hb, hc]
      · simp [digitRunCandidates, ha, hb, hc]
  | [a, b, c] =>
    have ha := hd a (by simp)
    have hb := hd b (by simp)
    have hc := hd c (by simp)
    simp [digitRunCandidates, ha, hb, hc]
  | a :: b :: c :: d :: rest =>
    simp only [List.length_cons] at h3
    omega

/-- A successful `ipCore` parse decomposes the input into four dotted digit
runs. -/
theorem ipCore_decomp (s rem : List Char) (h : ipCore s = some rem) :
    ∃ d1 d2 d3 d4,
      s = d1 ++ '.' :: (d2 ++ '.' :: (d3 ++ '.' :: (d4 ++ rem))) ∧
      (1 ≤ d1.length ∧ d1.length ≤ 3 ∧ ∀ c ∈ d1, c.isDigit = true) ∧
      (1 ≤ d2.length ∧ d2.length ≤ 3 ∧ ∀ c ∈ d2, c.isDigit = true) ∧
      (1 ≤ d3.length ∧ d3.length ≤ 3 ∧ ∀ c ∈ d3, c.isDigit = true) ∧
      (1 ≤ d4.length ∧ d4.length ≤ 3 ∧ ∀ c ∈ d4, c.isDigit = true) ∧
      digitBoundaryOk rem = true := by
  rw [ipCore] at h
  obtain ⟨s1, hm1, h1⟩ := firstSome_inv _ _ _ h
  simp only [Option.bind_eq_bind] at h1
  split at h1
  case h_2 => simp at h1
  case h_1 s1' =>
    simp only [Option.some_bind] at h1
    obtain ⟨s2, hm2, h2⟩ := firstSome_inv _ _ _ h1
    split at h2
    case h_2 => simp at h2
    case h_1 s2' =>
      obtain ⟨s3, hm3, h3⟩ := firstSome_inv _ _ _ h2
      split at h3
      case h_2 => simp at h3
      case h_1 s3' =>
        obtain ⟨s4, hm4, h4⟩ := firstSome_inv _ _ _ h3
        by_cases hbd : digitBoundaryOk s4
        · rw [if_pos hbd] at h4
          simp only [Option.some_inj] at h4
          subst h4
          obtain ⟨d1, hsu, hd1a, hd1b, hd1c⟩ := digitRunCandidates_inv s _ hm1
          obtain ⟨d2, hsu2, hd2a, hd2b, hd2c⟩ := digitRunCandidates_inv s1' _ hm2
          obtain ⟨d3, hsu3, hd3a, hd3b, hd3c⟩ := digitRunCandidates_inv s2' _ hm3
          obtain ⟨d4, hsu4, hd4a, hd4b, hd4c⟩ := digitRunCandidates_inv s3' _ hm4
          exact ⟨d1, d2, d3, d4,
            by rw [hsu, hsu2, hsu3, hsu4],
            ⟨hd1a, hd1b, hd1c⟩, ⟨hd2a, hd2b, hd2c⟩,
            ⟨hd3a, hd3b, hd3c⟩, ⟨hd4a, hd4b, hd4c⟩, hbd⟩
        · rw [if_neg hbd] at h4; simp at h4

/-- `ipCore` accepts any dotted-quad block before any tail that starts at a
non-word character. -/
theorem ipCore_build (d1 d2 d3 d4 t : List Char)
    (h1 : 1 ≤ d1.length ∧ d1.length ≤ 3 ∧ ∀ c ∈ d1, c.isDigit = true)
    (h2 : 1 ≤ d2.length ∧ d2.length ≤ 3 ∧ ∀ c ∈ d2, c.isDigit = true)
    (h3 : 1 ≤ d3.length ∧ d3.length ≤ 3 ∧ ∀ c ∈ d3, c.isDigit = true)
    (h4 : 1 ≤ d4.length ∧ d4.length ≤ 3 ∧ ∀ c ∈ d4, c.isDigit = true)
    (hb : digitBoundaryOk t = true) :
    (ipCore (d1 ++ '.' :: (d2 ++ '.' :: (d3 ++ '.' :: (d4 ++ t))))).isSome = true := by
  rw [ipCore]
  apply firstSome_build _ _ ('.' :: (d2 ++ '.' :: (d3 ++ '.' :: (d4 ++ t))))
  · exact digitRunCandidates_build d1 _ h1.1 h1.2.1 h1.2.2
  · apply firstSome_build _ _ ('.' :: (d3 ++ '.' :: (d4 ++ t)))
    · exact digitRunCandidates_build d2 _ h2.1 h2.2.1 h2.2.2
    · apply firstSome_build _ _ ('.' :: (d4 ++ t))
      · exact digitRunCandidates_build d3 _ h3.1 h3.2.1 h3.2.2
      · apply firstSome_build _ _ t
        · exact digitRunCandidates_build d4 _ h4.1 h4.2.1 h4.2.2
        · show ((if digitBoundaryOk t = true then some t else none).isSome) = true
          rw [if_pos hb]
          rfl

/-- `ipCore` rejects the empty input. -/
theorem ipCore_empty : ipCore [] = none := rfl

/-- `ipCore` fails on a non-digit head. -/
theorem ipCore_head_fail (c : Char) (t : List Char) (hc : c.isDigit = false) :
    ipCore (c :: t) = none := by
  rw [ipCore]
  rw [show digitRunCandidates (c :: t) = [] from by simp [digitRunCandidates, hc]]
  rfl

/-- Interface (inversion) for the IP-address pattern. -/
theorem ip_inv : ∀ s rem, ipCore s = some rem → ∃ n, 1 ≤ n ∧ n ≤ s.length ∧
    rem = s.drop n ∧ (∀ ch ∈ s.take n, ch ≠ '[' ∧ ch ≠ ']') ∧
    (isWordOpt ((s.take n).getLast?) ≠ isWordOpt rem.head?) := by
  intro s rem h
  obtain ⟨d1, d2, d3, d4, hs, h1, h2, h3, h4, hbd⟩ := ipCore_decomp s rem h
  have hu4 : d4 ≠ [] := by
    rintro rfl
    exact absurd h4.1 (by simp)
  refine inv_of_decomp s (d1 ++ '.' :: (d2 ++ '.' :: (d3 ++ '.' :: d4))) rem
    (hs.trans (by simp)) (by simp) ?_ ?_ ((digitBoundaryOk_iff rem).mp hbd)
  · intro ch hch
    simp only [List.mem_append, List.mem_cons] at hch
    rcases hch with h5 | rfl | h5 | rfl | h5 | rfl | h5
    · exact digit_no_bracket ch (h1.2.2 ch h5)
    · exact ⟨by decide, by decide⟩
    · exact digit_no_bracket ch (h2.2.2 ch h5)
    · exact ⟨by decide, by decide⟩
    · exact digit_no_bracket ch (h3.2.2 ch h5)
    · exact ⟨by decide, by decide⟩
    · exact digit_no_bracket ch (h4.2.2 ch h5)
  · obtain ⟨d, hdl, hdd⟩ := getLast?_digit d4 hu4 h4.2.2
    refine ⟨d, ?_, isWordChar_of_digit d hdd⟩
    rw [show d1 ++ '.' :: (d2 ++ '.' :: (d3 ++ '.' :: d4)) =
      (d1 ++ '.' :: d2 ++ '.' :: d3 ++ ['.']) ++ d4 from by simp,
      List.getLast?_append_of_ne_nil _ hu4, hdl]

/-- Interface (transplant) for the IP-address pattern. -/
theorem ip_trans : ∀ s n t, ipCore s = some (s.drop n) → 1 ≤ n → n ≤ s.length →
    (isWordOpt ((s.take n).getLast?) ≠ isWordOpt t.head?) →
    (ipCore ((s.take n) ++ t)).isSome = true := by
  intro s n t h hn1 hn2 hbd
  obtain ⟨d1, d2, d3, d4, hs, h1, h2, h3, h4, hbdr⟩ := ipCore_decomp s _ h
  have hu4 : d4 ≠ [] := by
    rintro rfl
    exact absurd h4.1 (by simp)
  have hcons : s = (d1 ++ '.' :: (d2 ++ '.' :: (d3 ++ '.' :: d4))) ++ s.drop n :=
    hs.trans (by simp)
  have htake := take_of_append_drop s _ n hn2 hcons
  rw [htake] at hbd ⊢
  obtain ⟨d, hdl, hdd⟩ := getLast?_digit d4 hu4 h4.2.2
  have hC4 : (d1 ++ '.' :: (d2 ++ '.' :: (d3 ++ '.' :: d4))).getLast? = some d := by
    rw [show d1 ++ '.' :: (d2 ++ '.' :: (d3 ++ '.' :: d4)) =
      (d1 ++ '.' :: d2 ++ '.' :: d3 ++ ['.']) ++ d4 from by simp,
      List.getLast?_append_of_ne_nil _ hu4, hdl]
  have ht := tail_nonword _ t d hC4 (isWordChar_of_digit d hdd) (hC4 ▸ hbd)
  have hbt : digitBoundaryOk t = true := (digitBoundaryOk_iff t).mpr ht
  rw [show (d1 ++ '.' :: (d2 ++ '.' :: (d3 ++ '.' :: d4))) ++ t =
    d1 ++ '.' :: (d2 ++ '.' :: (d3 ++ '.' :: (d4 ++ t))) from by simp]
  exact ipCore_build d1 d2 d3 d4 t h1 h2 h3 h4 hbt

/-- Interface (replacement freedom) for the IP-address pattern. -/
theorem ip_repl : ∀ k t, k < redactedChars.length →
    ipCore (redactedChars.drop k ++ t) = none := by
  intro k t hk
  rw [redactedChars_eq] at hk
  simp only [List.length_cons, List.length_nil] at hk
  interval_cases k
  · exact ipCore_head_fail '[' _ (by decide)
  · exact ipCore_head_fail 'R' _ (by decide)
  · exact ipCore_head_fail 'E' _ (by decide)
  · exact ipCore_head_fail 'D' _ (by decide)
  · exact ipCore_head_fail 'A' _ (by decide)
  · exact ipCore_head_fail 'C' _ (by decide)
  · exact ipCore_head_fail 'T' _ (by decide)
  · exact ipCore_head_fail 'E' _ (by decide)
  · exact ipCore_head_fail 'D' _ (by decide)
  · exact ipCore_head_fail ']' _ (by decide)

/-- The IP-address interface bundle. -/
theorem ip_interface : CoreInterface ipCore :=
  ⟨ipCore_empty, ip_inv, ip_trans, ip_repl⟩

/-! ### The phone pattern: interface lemmas -/

/-- Phone separators are not brackets. -/
theorem phoneSep_no_bracket (c : Char) (h : phoneSep c = true) :
    c ≠ '[' ∧ c ≠ ']' := by
  constructor <;> rintro rfl <;> revert h <;> decide

/-- An `optChar` candidate is reached by consuming the optional character. -/
theorem optChar_split (c : Char) (a b : List Char) (h : b ∈ optChar c a) :
    ∃ v, a = v ++ b ∧ (v = [] ∨ v = [c]) := by
  rcases optChar_inv c a b h with h5 | h5
  · exact ⟨[], by simp [h5], Or.inl rfl⟩
  · exact ⟨[c], by simp [h5], Or.inr rfl⟩

/-- Inversion for the optional `+1` phone prefix. -/
theorem phonePlus_split (a b : List Char) (h : b ∈ phonePlusCandidates a) :
    ∃ p, a = p ++ b ∧
      (p = [] ∨ p = ['+', '1'] ∨ p = ['+', '1', '-'] ∨ p = ['+', '1', '.']) := by
  rw [phonePlusCandidates.eq_def] at h
  split at h
  · next rest =>
    split at h
    · next c rest2 =>
      by_cases hc : (c = '-' || c = '.') = true
      · rw [if_pos hc] at h
        simp only [List.mem_cons, List.not_mem_nil, or_false] at h
        rcases h with rfl | rfl | rfl
        · rcases (Bool.or_eq_true _ _).mp hc with h5 | h5
          · have hcc : c = '-' := by simpa using h5
            subst hcc
            exact ⟨['+', '1', '-'], by simp, by simp⟩
          · have hcc : c = '.' := by simpa using h5
            subst hcc
            exact ⟨['+', '1', '.'], by simp, by simp⟩
        · exact ⟨['+', '1'], by simp, by simp⟩
        · exact ⟨[], by simp, by simp⟩
      · rw [if_neg hc] at h
        simp only [List.mem_cons, List.not_mem_nil, or_false] at h
        rcases h with rfl | rfl
        · exact ⟨['+', '1'], by simp, by simp⟩
        · exact ⟨[], by simp, by simp⟩
    · next =>
      simp only [List.mem_cons, List.not_mem_nil, or_false] at h
      rcases h with rfl | rfl
      · exact ⟨['+', '1'], by simp, by simp⟩
      · exact ⟨[], by simp, by simp⟩
  · next =>
    simp only [List.mem_cons, List.not_mem_nil, or_false] at h
    exact ⟨[], by simp [h], by simp⟩

/-- The full input is always a `phonePlusCandidates` candidate. -/
theorem phonePlus_self (s : List Char) : s ∈ phonePlusCandidates s := by
  rw [phonePlusCandidates.eq_def]
  split
  · next rest =>
    split
    · next c rest2 =>
      by_cases hc : (c = '-' || c = '.') = true
      · rw [if_pos hc]; simp
      · rw [if_neg hc]; simp
    · next => simp
  · next => simp

/-- Consuming a well-formed `+1` prefix is a candidate. -/
theorem phonePlus_build (p b : List Char)
    (hp : p = [] ∨ p = ['+', '1'] ∨ p = ['+', '1', '-'] ∨ p = ['+', '1', '.']) :
    b ∈ phonePlusCandidates (p ++ b) := by
  rcases hp with rfl | rfl | rfl | rfl
  · simpa using phonePlus_self b
  · show b ∈ phonePlusCandidates ('+' :: '1' :: b)
    rw [phonePlusCandidates.eq_def]
    split
    · next rest heq =>
      injection heq with h1 heq
      injection heq with h2 heq
      subst heq
      split
      · next c rest2 =>
        by_cases hc : (c = '-' || c = '.') = true
        · rw [if_pos hc]; simp
        · rw [if_neg hc]; simp
      · next => simp
    · next hne => exact (hne b rfl).elim
  · show b ∈ phonePlusCandidates ('+' :: '1' :: '-' :: b)
    rw [phonePlusCandidates.eq_def]
    split
    · next rest heq =>
      injection heq with h1 heq
      injection heq with h2 heq
      subst heq
      split
      · next c rest2 heq2 =>
        injection heq2 with h3 heq2
        subst h3
        subst heq2
        rw [if_pos (by decide)]
        simp
      · next hne => simp at hne
    · next hne => exact (hne ('-' :: b) rfl).elim
  · show b ∈ phonePlusCandidates ('+' :: '1' :: '.' :: b)
    rw [phonePlusCandidates.eq_def]
    split
    · next rest heq =>
      injection heq with h1 heq
      injection heq with h2 heq
      subst heq
      split
      · next c rest2 heq2 =>
        injection heq2 with h3 heq2
        subst h3
        subst heq2
        rw [if_pos (by decide)]
        simp
      · next hne => simp at hne
    · next hne => exact (hne ('.' :: b) rfl).elim

/-- A successful `phoneCore` parse decomposes the input. -/
theorem phoneCore_decomp (s rem : List Char) (h : phoneCore s = some rem) :
    ∃ p w1 u1 w2 v1 u2 v2 u3,
      s = p ++ (w1 ++ (u1 ++ (w2 ++ (v1 ++ (u2 ++ (v2 ++ (u3 ++ rem))))))) ∧
      (p = [] ∨ p = ['+', '1'] ∨ p = ['+', '1', '-'] ∨ p = ['+', '1', '.']) ∧
      (w1 = [] ∨ w1 = ['(']) ∧
      u1.length = 3 ∧ (∀ c ∈ u1, c.isDigit = true) ∧
      (w2 = [] ∨ w2 = [')']) ∧
      (v1 = [] ∨ ∃ c, phoneSep c = true ∧ v1 = [c]) ∧
      u2.length = 3 ∧ (∀ c ∈ u2, c.isDigit = true) ∧
      (v2 = [] ∨ ∃ c, phoneSep c = true ∧ v2 = [c]) ∧
      u3.length = 4 ∧ (∀ c ∈ u3, c.isDigit = true) ∧
      digitBoundaryOk rem = true := by
  rw [phoneCore] at h
  obtain ⟨s1, hm1, h1⟩ := firstSome_inv _ _ _ h
  obtain ⟨s2, hm2, h2⟩ := firstSome_inv _ _ _ h1
  cases he1 : eatDigits 3 s2 with
  | none => rw [he1] at h2; simp at h2
  | some s3 =>
    rw [he1] at h2
    simp only [Option.bind_eq_bind, Option.some_bind] at h2
    obtain ⟨s4, hm4, h4⟩ := firstSome_inv _ _ _ h2
    obtain ⟨s5, hm5, h5⟩ := firstSome_inv _ _ _ h4
    cases he2 : eatDigits 3 s5 with
    | none => rw [he2] at h5; simp at h5
    | some s6 =>
      rw [he2] at h5
      simp only [Option.some_bind] at h5
      obtain ⟨s7, hm7, h7⟩ := firstSome_inv _ _ _ h5
      cases he3 : eatDigits 4 s7 with
      | none => rw [he3] at h7; simp at h7
      | some s8 =>
        rw [he3] at h7
        simp only [Option.some_bind] at h7
        by_cases hbd : digitBoundaryOk s8
        · rw [if_pos hbd] at h7
          simp only [Option.some_inj] at h7
          subst h7
          obtain ⟨p, hsp, hp⟩ := phonePlus_split s s1 hm1
          obtain ⟨w1, hs1w, hw1⟩ := optChar_split '(' s1 s2 hm2
          obtain ⟨u1, hs2u, hl1, hd1⟩ := eatDigits_inv 3 s2 s3 he1
          obtain ⟨w2, hs3w, hw2⟩ := optChar_split ')' s3 s4 hm4
          obtain ⟨v1, hs4v, hv1⟩ := optSep_split phoneSep s4 s5 hm5
          obtain ⟨u2, hs5u, hl2, hd2⟩ := eatDigits_inv 3 s5 s6 he2
          obtain ⟨v2, hs6v, hv2⟩ := optSep_split phoneSep s6 s7 hm7
          obtain ⟨u3, hs7u, hl3, hd3⟩ := eatDigits_inv 4 s7 s8 he3
          exact ⟨p, w1, u1, w2, v1, u2, v2, u3,
            by rw [hsp, hs1w, hs2u, hs3w, hs4v, hs5u, hs6v, hs7u],
            hp, hw1, hl1, hd1, hw2, hv1, hl2, hd2, hv2, hl3, hd3, hbd⟩
        · rw [if_neg hbd] at h7; simp at h7

/-- `phoneCore` accepts any well-shaped block before any tail that starts
at a non-word character. -/
theorem phoneCore_build (p w1 u1 w2 v1 u2 v2 u3 t : List Char)
    (hp : p = [] ∨ p = ['+', '1'] ∨ p = ['+', '1', '-'] ∨ p = ['+', '1', '.'])
    (hw1 : w1 = [] ∨ w1 = ['('])
    (hl1 : u1.length = 3) (hd1 : ∀ c ∈ u1, c.isDigit = true)
    (hw2 : w2 = [] ∨ w2 = [')'])
    (hv1 : v1 = [] ∨ ∃ c, phoneSep c = true ∧ v1 = [c])
    (hl2 : u2.length = 3) (hd2 : ∀ c ∈ u2, c.isDigit = true)
    (hv2 : v2 = [] ∨ ∃ c, phoneSep c = true ∧ v2 = [c])
    (hl3 : u3.length = 4) (hd3 : ∀ c ∈ u3, c.isDigit = true)
    (hb : digitBoundaryOk t = true) :
    (phoneCore (p ++ (w1 ++ (u1 ++ (w2 ++ (v1 ++ (u2 ++ (v2 ++ (u3 ++ t))))))))).isSome
      = true := by
  rw [phoneCore]
  apply firstSome_build _ _ (w1 ++ (u1 ++ (w2 ++ (v1 ++ (u2 ++ (v2 ++ (u3 ++ t)))))))
  · exact phonePlus_build p _ hp
  · apply firstSome_build _ _ (u1 ++ (w2 ++ (v1 ++ (u2 ++ (v2 ++ (u3 ++ t))))))
    · rcases hw1 with rfl | rfl
      · simpa using optChar_self '(' _
      · simpa using optChar_cons '(' _
    · rw [eatDigits_build' 3 u1 _ hl1 hd1]
      simp only [Option.bind_eq_bind, Option.some_bind]
      apply firstSome_build _ _ (v1 ++ (u2 ++ (v2 ++ (u3 ++ t))))
      · rcases hw2 with rfl | rfl
        · simpa using optChar_self ')' _
        · simpa using optChar_cons ')' _
      · apply firstSome_build _ _ (u2 ++ (v2 ++ (u3 ++ t)))
        · rcases hv1 with rfl | ⟨c, hc, rfl⟩
          · simpa using optSep_self phoneSep _
          · simpa using optSep_cons phoneSep c _ hc
        · rw [eatDigits_build' 3 u2 _ hl2 hd2]
          simp only [Option.some_bind]
          apply firstSome_build _ _ (u3 ++ t)
          · rcases hv2 with rfl | ⟨c, hc, rfl⟩
            · simpa using optSep_self phoneSep _
            · simpa using optSep_cons phoneSep c _ hc
          · rw [eatDigits_build' 4 u3 _ hl3 hd3]
            simp only [Option.some_bind, if_pos hb]
            rfl

/-- Characters of a well-formed `+1` prefix are not brackets. -/
theorem pshape_no_bracket (p : List Char)
    (hp : p = [] ∨ p = ['+', '1'] ∨ p = ['+', '1', '-'] ∨ p = ['+', '1', '.']) :
    ∀ ch ∈ p, ch ≠ '[' ∧ ch ≠ ']' := by
  rcases hp with rfl | rfl | rfl | rfl
  · simp
  · decide
  · decide
  · decide

/-- `phoneCore` rejects the empty input. -/
theorem phoneCore_empty : phoneCore [] = none := rfl

/-- `phoneCore` fails on a head that is not a digit, `+`, or `(`. -/
theorem phoneCore_head_fail (c : Char) (t : List Char) (hc1 : c.isDigit = false)
    (hc2 : c ≠ '+') (hc3 : c ≠ '(') : phoneCore (c :: t) = none := by
  have hppc : phonePlusCandidates (c :: t) = [c :: t] := by
    rw [phonePlusCandidates.eq_def]
    split
    · next rest heq =>
      injection heq with h1 _
      exact absurd h1 hc2
    · next => rfl
  have he : eatDigits 3 (c :: t) = none := eatDigits_head_fail 2 c t hc1
  simp [phoneCore, hppc, firstSome, optChar, hc3, he]

/-- Interface (inversion) for the phone pattern. -/
theorem phone_inv : ∀ s rem, phoneCore s = some rem → ∃ n, 1 ≤ n ∧ n ≤ s.length ∧
    rem = s.drop n ∧ (∀ ch ∈ s.take n, ch ≠ '[' ∧ ch ≠ ']') ∧
    (isWordOpt ((s.take n).getLast?) ≠ isWordOpt rem.head?) := by
  intro s rem h
  obtain ⟨p, w1, u1, w2, v1, u2, v2, u3, hs, hp, hw1, hl1, hd1, hw2, hv1,
    hl2, hd2, hv2, hl3, hd3, hbd⟩ := phoneCore_decomp s rem h
  have hu3 : u3 ≠ [] := by rintro rfl; simp at hl3
  refine inv_of_decomp s (p ++ (w1 ++ (u1 ++ (w2 ++ (v1 ++ (u2 ++ (v2 ++ u3))))))) rem
    (hs.trans (by simp)) ?_ ?_ ?_ ((digitBoundaryOk_iff rem).mp hbd)
  · intro heq
    have h2 := congrArg List.length heq
    simp only [List.length_append, List.length_nil] at h2
    omega
  · intro ch hch
    simp only [List.mem_append] at hch
    rcases hch with h5 | h5 | h5 | h5 | h5 | h5 | h5 | h5
    · exact pshape_no_bracket p hp ch h5
    · rcases hw1 with rfl | rfl
      · simp at h5
      · rw [List.mem_singleton] at h5
        subst h5
        exact ⟨by decide, by decide⟩
    · exact digit_no_bracket ch (hd1 ch h5)
    · rcases hw2 with rfl | rfl
      · simp at h5
      · rw [List.mem_singleton] at h5
        subst h5
        exact ⟨by decide, by decide⟩
    · rcases hv1 with rfl | ⟨c, hc, rfl⟩
      · simp at h5
      · rw [List.mem_singleton] at h5
        exact h5 ▸ phoneSep_no_bracket c hc
    · exact digit_no_bracket ch (hd2 ch h5)
    · rcases hv2 with rfl | ⟨c, hc, rfl⟩
      · simp at h5
      · rw [List.mem_singleton] at h5
        exact h5 ▸ phoneSep_no_bracket c hc
    · exact digit_no_bracket ch (hd3 ch h5)
  · obtain ⟨d, hdl, hdd⟩ := getLast?_digit u3 hu3 hd3
    refine ⟨d, ?_, isWordChar_of_digit d hdd⟩
    rw [show p ++ (w1 ++ (u1 ++ (w2 ++ (v1 ++ (u2 ++ (v2 ++ u3)))))) =
      (p ++ w1 ++ u1 ++ w2 ++ v1 ++ u2 ++ v2) ++ u3 from by simp,
      List.getLast?_append_of_ne_nil _ hu3, hdl]

/-- Interface (transplant) for the phone pattern. -/
theorem phone_trans : ∀ s n t, phoneCore s = some (s.drop n) → 1 ≤ n →
    n ≤ s.length → (isWordOpt ((s.take n).getLast?) ≠ isWordOpt t.head?) →
    (phoneCore ((s.take n) ++ t)).isSome = true := by
  intro s n t h hn1 hn2 hbd
  obtain ⟨p, w1, u1, w2, v1, u2, v2, u3, hs, hp, hw1, hl1, hd1, hw2, hv1,
    hl2, hd2, hv2, hl3, hd3, hbdr⟩ := phoneCore_decomp s _ h
  have hu3 : u3 ≠ [] := by rintro rfl; simp at hl3
  have hcons : s = (p ++ (w1 ++ (u1 ++ (w2 ++ (v1 ++ (u2 ++ (v2 ++ u3))))))) ++ s.drop n :=
    hs.trans (by simp)
  have htake := take_of_append_drop s _ n hn2 hcons
  rw [htake] at hbd ⊢
  obtain ⟨d, hdl, hdd⟩ := getLast?_digit u3 hu3 hd3
  have hC4 : (p ++ (w1 ++ (u1 ++ (w2 ++ (v1 ++ (u2 ++ (v2 ++ u3))))))).getLast? = some d := by
    rw [show p ++ (w1 ++ (u1 ++ (w2 ++ (v1 ++ (u2 ++ (v2 ++ u3)))))) =
      (p ++ w1 ++ u1 ++ w2 ++ v1 ++ u2 ++ v2) ++ u3 from by simp,
      List.getLast?_append_of_ne_nil _ hu3, hdl]
  have ht := tail_nonword _ t d hC4 (isWordChar_of_digit d hdd) (hC4 ▸ hbd)
  have hbt : digitBoundaryOk t = true := (digitBoundaryOk_iff t).mpr ht
  rw [show (p ++ (w1 ++ (u1 ++ (w2 ++ (v1 ++ (u2 ++ (v2 ++ u3))))))) ++ t =
    p ++ (w1 ++ (u1 ++ (w2 ++ (v1 ++ (u2 ++ (v2 ++ (u3 ++ t))))))) from by simp]
  exact phoneCore_build p w1 u1 w2 v1 u2 v2 u3 t hp hw1 hl1 hd1 hw2 hv1
    hl2 hd2 hv2 hl3 hd3 hbt

/-- Interface (replacement freedom) for the phone pattern. -/
theorem phone_repl : ∀ k t, k < redactedChars.length →
    phoneCore (redactedChars.drop k ++ t) = none := by
  intro k t hk
  rw [redactedChars_eq] at hk
  simp only [List.length_cons, List.length_nil] at hk
  interval_cases k
  · exact phoneCore_head_fail '[' _ (by decide) (by decide) (by decide)
  · exact phoneCore_head_fail 'R' _ (by decide) (by decide) (by decide)
  · exact phoneCore_head_fail 'E' _ (by decide) (by decide) (by decide)
  · exact phoneCore_head_fail 'D' _ (by decide) (by decide) (by decide)
  · exact phoneCore_head_fail 'A' _ (by decide) (by decide) (by decide)
  · exact phoneCore_head_fail 'C' _ (by decide) (by decide) (by decide)
  · exact phoneCore_head_fail 'T' _ (by decide) (by decide) (by decide)
  · exact phoneCore_head_fail 'E' _ (by decide) (by decide) (by decide)
  · exact phoneCore_head_fail 'D' _ (by decide) (by decide) (by decide)
  · exact phoneCore_head_fail ']' _ (by decide) (by decide) (by decide)

/-- The phone interface bundle. -/
theorem phone_interface : CoreInterface phoneCore :=
  ⟨phoneCore_empty, phone_inv, phone_trans, phone_repl⟩

/-! ### The email pattern: interface lemmas -/

/-- Local-part characters are not brackets. -/
theorem localChar_no_bracket (c : Char) (h : localChar c = true) :
    c ≠ '[' ∧ c ≠ ']' := by
  constructor <;> rintro rfl <;> revert h <;> decide

/-- Domain characters are not brackets. -/
theorem domChar_no_bracket (c : Char) (h : domChar c = true) :
    c ≠ '[' ∧ c ≠ ']' := by
  constructor <;> rintro rfl <;> revert h <;> decide

/-- TLD characters are not brackets. -/
theorem tldChar_no_bracket (c : Char) (h : tldChar c = true) :
    c ≠ '[' ∧ c ≠ ']' := by
  constructor <;> rintro rfl <;> revert h <;> decide

/-- `takeWhile` never grows the list. -/
theorem length_takeWhile_le (p : Char → Bool) (l : List Char) :
    (l.takeWhile p).length ≤ l.length := by
  induction l with
  | nil => simp
  | cons c rest ih =>
    rw [List.takeWhile_cons]
    by_cases hc : p c
    · rw [if_pos hc]; simpa using ih
    · rw [if_neg hc]; simp

/-- Positions inside the `takeWhile` run satisfy the predicate. -/
theorem sat_of_take_le_takeWhile (p : Char → Bool) (l : List Char) (j : Nat)
    (hj : j ≤ (l.takeWhile p).length) : ∀ c ∈ l.take j, p c = true := by
  intro c hc
  have h1 : l.take j = (l.takeWhile p).take j := by
    conv_lhs => rw [← List.takeWhile_append_dropWhile p l]
    rw [List.take_append_of_le_length hj]
  rw [h1] at hc
  exact List.mem_takeWhile_imp (List.take_subset j _ hc)

/-- An all-satisfying prefix keeps the `takeWhile` run at least as long. -/
theorem takeWhile_ge_of_allSat (p : Char → Bool) (u v : List Char)
    (hu : ∀ c ∈ u, p c = true) :
    u.length ≤ ((u ++ v).takeWhile p).length := by
  rw [takeWhile_all_append p u v hu]
  simp

/-- Evaluation of `emailCore` on an input that starts with a maximal local
run followed by `@`. -/
theorem emailCore_eval (L X : List Char) (hL : L ≠ [])
    (hLc : ∀ c ∈ L, localChar c = true) :
    emailCore (L ++ '@' :: X) =
      firstSome (fun d =>
        if d = 0 then none
        else
          match X.drop d with
          | '.' :: afterDot =>
            if (afterDot.takeWhile tldChar).length < 2 then none
            else
              firstSome (fun t =>
                match (afterDot.take t).getLast? with
                | some lastTld =>
                  if boundary (some lastTld) (afterDot.drop t).head? then
                    some (afterDot.drop t)
                  else none
                | none => none)
                (countdown (afterDot.takeWhile tldChar).length 2)
          | _ => none)
        (countdown (X.takeWhile domChar).length 1) := by
  have hemp : L.isEmpty = false := by simp [List.isEmpty_iff, hL]
  rw [emailCore, takeWhile_append_stop localChar L '@' X hLc (by decide),
    dropWhile_append_stop localChar L '@' X hLc (by decide)]
  rw [if_neg (by rw [hemp]; exact Bool.false_ne_true)]
  rfl

/-- A successful `emailCore` parse decomposes the input into local part,
domain, and TLD, with the boundary evidence. -/
theorem emailCore_decomp (s rem : List Char) (h : emailCore s = some rem) :
    ∃ L D T lastT,
      s = L ++ '@' :: (D ++ '.' :: (T ++ rem)) ∧
      L ≠ [] ∧ (∀ c ∈ L, localChar c = true) ∧
      D ≠ [] ∧ (∀ c ∈ D, domChar c = true) ∧
      2 ≤ T.length ∧ (∀ c ∈ T, tldChar c = true) ∧
      T.getLast? = some lastT ∧
      boundary (some lastT) rem.head? = true := by
  simp only [emailCore] at h
  by_cases hemp : (s.takeWhile localChar).isEmpty = true
  · rw [if_pos hemp] at h; simp at h
  · rw [if_neg hemp] at h
    split at h
    next afterAt heq =>
      obtain ⟨dval, hdmem, hd⟩ := firstSome_inv _ _ _ h
      by_cases hd0 : dval = 0
      · rw [if_pos hd0] at hd; simp at hd
      · rw [if_neg hd0] at hd
        split at hd
        next afterDot heq2 =>
          by_cases htm : (afterDot.takeWhile tldChar).length < 2
          · rw [if_pos htm] at hd; simp at hd
          · rw [if_neg htm] at hd
            obtain ⟨tval, htmem, htv⟩ := firstSome_inv _ _ _ hd
            split at htv
            next lastT heq3 =>
              by_cases hbd : boundary (some lastT) (afterDot.drop tval).head? = true
              · rw [if_pos hbd] at htv
                simp only [Option.some_inj] at htv
                obtain ⟨hd1, hdm⟩ := (mem_countdown _ _ _).mp hdmem
                obtain ⟨ht2, htm2⟩ := (mem_countdown _ _ _).mp htmem
                have hdlen : dval ≤ afterAt.length :=
                  le_trans hdm (length_takeWhile_le _ _)
                have htlen : tval ≤ afterDot.length :=
                  le_trans htm2 (length_takeWhile_le _ _)
                have hDlen : (afterAt.take dval).length = dval := by
                  rw [List.length_take]; omega
                have hTlen : (afterDot.take tval).length = tval := by
                  rw [List.length_take]; omega
                have hL : s.takeWhile localChar ≠ [] := by
                  intro h0
                  rw [h0] at hemp
                  simp at hemp
                have hs : s = s.takeWhile localChar ++ '@' :: afterAt := by
                  conv_lhs => rw [← List.takeWhile_append_dropWhile localChar s]
                  rw [heq]
                have e1 : afterAt = afterAt.take dval ++ '.' ::
                    (afterDot.take tval ++ rem) := by
                  conv_lhs => rw [← List.take_append_drop dval afterAt, heq2]
                  rw [← htv, List.take_append_drop]
                refine ⟨s.takeWhile localChar, afterAt.take dval, afterDot.take tval,
                  lastT, ?_, hL, fun c hc => List.mem_takeWhile_imp hc, ?_,
                  sat_of_take_le_takeWhile domChar afterAt dval hdm, ?_,
                  sat_of_take_le_takeWhile tldChar afterDot tval htm2, heq3,
                  htv ▸ hbd⟩
                · conv_lhs => rw [hs, e1]
                · intro h0
                  rw [h0] at hDlen
                  simp at hDlen
                  omega
                · rw [hTlen]; exact ht2
              · rw [if_neg hbd] at htv; simp at htv
            next => simp at htv
        next => simp at hd
    next => simp at h

/-- `emailCore` accepts any well-shaped email block before any tail with a
boundary after the TLD. -/
theorem emailCore_build (L D T t : List Char) (lastT : Char)
    (hL : L ≠ []) (hLc : ∀ c ∈ L, localChar c = true)
    (hD : D ≠ []) (hDc : ∀ c ∈ D, domChar c = true)
    (hT2 : 2 ≤ T.length) (hTc : ∀ c ∈ T, tldChar c = true)
    (hlast : T.getLast? = some lastT)
    (hbd : boundary (some lastT) t.head? = true) :
    (emailCore (L ++ '@' :: (D ++ '.' :: (T ++ t)))).isSome = true := by
  rw [emailCore_eval L _ hL hLc]
  have hD0 : D.length ≠ 0 := by
    intro h0
    exact hD (List.length_eq_zero.mp h0)
  have htm : ¬(((T ++ t).takeWhile tldChar).length < 2) := by
    have h2 := takeWhile_ge_of_allSat tldChar T t hTc
    omega
  apply firstSome_build _ _ D.length
  · rw [mem_countdown]
    exact ⟨by omega, takeWhile_ge_of_allSat domChar D _ hDc⟩
  · rw [if_neg hD0, List.drop_left]
    show (if ((T ++ t).takeWhile tldChar).length < 2 then none
      else firstSome (fun tv =>
        match ((T ++ t).take tv).getLast? with
        | some lastTld =>
          if boundary (some lastTld) ((T ++ t).drop tv).head? = true then
            some ((T ++ t).drop tv)
          else none
        | none => none)
        (countdown ((T ++ t).takeWhile tldChar).length 2)).isSome = true
    rw [if_neg htm]
    apply firstSome_build _ _ T.length
    · rw [mem_countdown]
      refine ⟨hT2, ?_⟩
      have h2 := takeWhile_ge_of_allSat tldChar T t hTc
      omega
    · rw [List.take_left, hlast]
      show (if boundary (some lastT) ((T ++ t).drop T.length).head? = true then
        some ((T ++ t).drop T.length) else none).isSome = true
      rw [List.drop_left, if_pos hbd]
      rfl

/-- `emailCore` rejects the empty input. -/
theorem emailCore_empty : emailCore [] = none := rfl

/-- `emailCore` fails when the local run is followed by a non-local,
non-`@` character. -/
theorem emailCore_reject (u : List Char) (c : Char) (t : List Char)
    (hu : ∀ x ∈ u, localChar x = true) (hc : localChar c = false)
    (hc2 : c ≠ '@') : emailCore (u ++ c :: t) = none := by
  simp only [emailCore, takeWhile_append_stop localChar u c t hu hc,
    dropWhile_append_stop localChar u c t hu hc]
  by_cases hemp : u.isEmpty = true
  · rw [if_pos hemp]
  · rw [if_neg hemp]
    split
    · next afterAt heq =>
      injection heq with h1 _
      exact absurd h1 hc2
    · next => rfl

/-- Interface (inversion) for the email pattern. -/
theorem email_inv : ∀ s rem, emailCore s = some rem → ∃ n, 1 ≤ n ∧
    n ≤ s.length ∧ rem = s.drop n ∧
    (∀ ch ∈ s.take n, ch ≠ '[' ∧ ch ≠ ']') ∧
    (isWordOpt ((s.take n).getLast?) ≠ isWordOpt rem.head?) := by
  intro s rem h
  obtain ⟨L, D, T, lastT, hs, hL, hLc, hD, hDc, hT2, hTc, hlast, hbd⟩ :=
    emailCore_decomp s rem h
  have hT : T ≠ [] := by rintro rfl; simp at hT2
  have hcons : s = (L ++ '@' :: (D ++ '.' :: T)) ++ rem := hs.trans (by simp)
  have hlen : s.length = (L ++ '@' :: (D ++ '.' :: T)).length + rem.length := by
    rw [hcons, List.length_append]
  have htake : s.take (L ++ '@' :: (D ++ '.' :: T)).length =
      L ++ '@' :: (D ++ '.' :: T) := by
    rw [hcons]; exact List.take_left _ _
  have hdrop : s.drop (L ++ '@' :: (D ++ '.' :: T)).length = rem := by
    rw [hcons]; exact List.drop_left _ _
  have hClast : (L ++ '@' :: (D ++ '.' :: T)).getLast? = some lastT := by
    rw [show L ++ '@' :: (D ++ '.' :: T) = (L ++ '@' :: D ++ ['.']) ++ T from by simp,
      List.getLast?_append_of_ne_nil _ hT, hlast]
  have hLpos : 1 ≤ L.length := List.length_pos.mpr hL
  refine ⟨(L ++ '@' :: (D ++ '.' :: T)).length, ?_, by omega, hdrop.symm, ?_, ?_⟩
  · simp only [List.length_append, List.length_cons]
    omega
  · intro ch hch
    rw [htake] at hch
    simp only [List.mem_append, List.mem_cons] at hch
    rcases hch with h5 | rfl | h5 | rfl | h5
    · exact localChar_no_bracket ch (hLc ch h5)
    · exact ⟨by decide, by decide⟩
    · exact domChar_no_bracket ch (hDc ch h5)
    · exact ⟨by decide, by decide⟩
    · exact tldChar_no_bracket ch (hTc ch h5)
  · rw [htake, hClast]
    exact (boundary_iff_ne _ _).mp hbd

/-- Interface (transplant) for the email pattern. -/
theorem email_trans : ∀ s n t, emailCore s = some (s.drop n) → 1 ≤ n →
    n ≤ s.length → (isWordOpt ((s.take n).getLast?) ≠ isWordOpt t.head?) →
    (emailCore ((s.take n) ++ t)).isSome = true := by
  intro s n t h hn1 hn2 hbd2
  obtain ⟨L, D, T, lastT, hs, hL, hLc, hD, hDc, hT2, hTc, hlast, hbdr⟩ :=
    emailCore_decomp s _ h
  have hT : T ≠ [] := by rintro rfl; simp at hT2
  have hcons : s = (L ++ '@' :: (D ++ '.' :: T)) ++ s.drop n := hs.trans (by simp)
  have htake := take_of_append_drop s _ n hn2 hcons
  rw [htake] at hbd2 ⊢
  have hClast : (L ++ '@' :: (D ++ '.' :: T)).getLast? = some lastT := by
    rw [show L ++ '@' :: (D ++ '.' :: T) = (L ++ '@' :: D ++ ['.']) ++ T from by simp,
      List.getLast?_append_of_ne_nil _ hT, hlast]
  have hbt : boundary (some lastT) t.head? = true := by
    rw [boundary_iff_ne]
    rw [hClast] at hbd2
    exact hbd2
  rw [show (L ++ '@' :: (D ++ '.' :: T)) ++ t =
    L ++ '@' :: (D ++ '.' :: (T ++ t)) from by simp]
  exact emailCore_build L D T t lastT hL hLc hD hDc hT2 hTc hlast hbt

/-- Interface (replacement freedom) for the email pattern. -/
theorem email_repl : ∀ k t, k < redactedChars.length →
    emailCore (redactedChars.drop k ++ t) = none := by
  intro k t hk
  rw [redactedChars_eq] at hk
  simp only [List.length_cons, List.length_nil] at hk
  interval_cases k
  · exact emailCore_reject [] '[' ('R' :: 'E' :: 'D' :: 'A' :: 'C' :: 'T' :: 'E' :: 'D' :: ']' :: t)
      (by simp) (by decide) (by decide)
  · exact emailCore_reject ['R', 'E', 'D', 'A', 'C', 'T', 'E', 'D'] ']' t
      (by decide) (by decide) (by decide)
  · exact emailCore_reject ['E', 'D', 'A', 'C', 'T', 'E', 'D'] ']' t
      (by decide) (by decide) (by decide)
  · exact emailCore_reject ['D', 'A', 'C', 'T', 'E', 'D'] ']' t
      (by decide) (by decide) (by decide)
  · exact emailCore_reject ['A', 'C', 'T', 'E', 'D'] ']' t
      (by decide) (by decide) (by decide)
  · exact emailCore_reject ['C', 'T', 'E', 'D'] ']' t
      (by decide) (by decide) (by decide)
  · exact emailCore_reject ['T', 'E', 'D'] ']' t
      (by decide) (by decide) (by decide)
  · exact emailCore_reject ['E', 'D'] ']' t
      (by decide) (by decide) (by decide)
  · exact emailCore_reject ['D'] ']' t
      (by decide) (by decide) (by decide)
  · exact emailCore_reject [] ']' t (by simp) (by decide) (by decide)

/-- The email interface bundle. -/
theorem email_interface : CoreInterface emailCore :=
  ⟨emailCore_empty, email_inv, email_trans, email_repl⟩

/-! ### Assembly: the full fallback pipeline output is match-free -/

/-- After `_fallback_sanitize` runs, none of the five patterns matches the
output text. -/
theorem fallbackSanitize_all_free (s : String) :
    anyMatch (matchLen emailCore) none (fallbackSanitize s).1.data = false ∧
    anyMatch (matchLen ssnCore) none (fallbackSanitize s).1.data = false ∧
    anyMatch (matchLen phoneCore) none (fallbackSanitize s).1.data = false ∧
    anyMatch (matchLen ccCore) none (fallbackSanitize s).1.data = false ∧
    anyMatch (matchLen ipCore) none (fallbackSanitize s).1.data = false := by
  have h1e := fallbackStep_clears email_interface ("EMAIL_ADDRESS") (s, [])
  have h2s := fallbackStep_clears ssn_interface ("US_SSN") (fallbackStep (matchLen emailCore) ("EMAIL_ADDRESS") (s, []))
  have h2e := fallbackStep_preserves email_interface ssn_interface ("US_SSN") (fallbackStep (matchLen emailCore) ("EMAIL_ADDRESS") (s, [])) h1e
  have h3p := fallbackStep_clears phone_interface ("PHONE_NUMBER") (fallbackStep (matchLen ssnCore) ("US_SSN") (fallbackStep (matchLen emailCore) ("EMAIL_ADDRESS") (s, [])))
  have h3s := fallbackStep_preserves ssn_interface phone_interface ("PHONE_NUMBER") (fallbackStep (matchLen ssnCore) ("US_SSN") (fallbackStep (matchLen emailCore) ("EMAIL_ADDRESS") (s, []))) h2s
  have h3e := fallbackStep_preserves email_interface phone_interface ("PHONE_NUMBER") (fallbackStep (matchLen ssnCore) ("US_SSN") (fallbackStep (matchLen emailCore) ("EMAIL_ADDRESS") (s, []))) h2e
  have h4c := fallbackStep_clears cc_interface ("CREDIT_CARD") (fallbackStep (matchLen phoneCore) ("PHONE_NUMBER") (fallbackStep (matchLen ssnCore) ("US_SSN") (fallbackStep (matchLen emailCore) ("EMAIL_ADDRESS") (s, []))))
  have h4p := fallbackStep_preserves phone_interface cc_interface ("CREDIT_CARD") (fallbackStep (matchLen phoneCore) ("PHONE_NUMBER") (fallbackStep (matchLen ssnCore) ("US_SSN") (fallbackStep (matchLen emailCore) ("EMAIL_ADDRESS") (s, [])))) h3p
  have h4s := fallbackStep_preserves ssn_interface cc_interface ("CREDIT_CARD") (fallbackStep (matchLen phoneCore) ("PHONE_NUMBER") (fallbackStep (matchLen ssnCore) ("US_SSN") (fallbackStep (matchLen emailCore) ("EMAIL_ADDRESS") (s, [])))) h3s
  have h4e := fallbackStep_preserves email_interface cc_interface ("CREDIT_CARD") (fallbackStep (matchLen phoneCore) ("PHONE_NUMBER") (fallbackStep (matchLen ssnCore) ("US_SSN") (fallbackStep (matchLen emailCore) ("EMAIL_ADDRESS") (s, [])))) h3e
  have h5i := fallbackStep_clears ip_interface ("IP_ADDRESS") (fallbackStep (matchLen ccCore) ("CREDIT_CARD") (fallbackStep (matchLen phoneCore) ("PHONE_NUMBER") (fallbackStep (matchLen ssnCore) ("US_SSN") (fallbackStep (matchLen emailCore) ("EMAIL_ADDRESS") (s, [])))))
  have h5c := fallbackStep_preserves cc_interface ip_interface ("IP_ADDRESS") (fallbackStep (matchLen ccCore) ("CREDIT_CARD") (fallbackStep (matchLen phoneCore) ("PHONE_NUMBER") (fallbackStep (matchLen ssnCore) ("US_SSN") (fallbackStep (matchLen emailCore) ("EMAIL_ADDRESS") (s, []))))) h4c
  have h5p := fallbackStep_preserves phone_interface ip_interface ("IP_ADDRESS") (fallbackStep (matchLen ccCore) ("CREDIT_CARD") (fallbackStep (matchLen phoneCore) ("PHONE_NUMBER") (fallbackStep (matchLen ssnCore) ("US_SSN") (fallbackStep (matchLen emailCore) ("EMAIL_ADDRESS") (s, []))))) h4p
  have h5s := fallbackStep_preserves ssn_interface ip_interface ("IP_ADDRESS") (fallbackStep (matchLen ccCore) ("CREDIT_CARD") (fallbackStep (matchLen phoneCore) ("PHONE_NUMBER") (fallbackStep (matchLen ssnCore) ("US_SSN") (fallbackStep (matchLen emailCore) ("EMAIL_ADDRESS") (s, []))))) h4s
  have h5e := fallbackStep_preserves email_interface ip_interface ("IP_ADDRESS") (fallbackStep (matchLen ccCore) ("CREDIT_CARD") (fallbackStep (matchLen phoneCore) ("PHONE_NUMBER") (fallbackStep (matchLen ssnCore) ("US_SSN") (fallbackStep (matchLen emailCore) ("EMAIL_ADDRESS") (s, []))))) h4e
  exact ⟨h5e, h5s, h5p, h5c, h5i⟩

/-- Scanning already-sanitized text is a no-op. -/
theorem fallbackSanitize_fixed (s : String) :
    fallbackSanitize ((fallbackSanitize s).1) = ((fallbackSanitize s).1, []) := by
  obtain ⟨he, hsn, hp, hc, hi⟩ := fallbackSanitize_all_free s
  rw [fallbackSanitize]
  rw [fallbackStep_id (matchLen emailCore) ("EMAIL_ADDRESS")
    (((fallbackSanitize s).1, [])) he]
  rw [fallbackStep_id (matchLen ssnCore) ("US_SSN")
    (((fallbackSanitize s).1, [])) hsn]
  rw [fallbackStep_id (matchLen phoneCore) ("PHONE_NUMBER")
    (((fallbackSanitize s).1, [])) hp]
  rw [fallbackStep_id (matchLen ccCore) ("CREDIT_CARD")
    (((fallbackSanitize s).1, [])) hc]
  rw [fallbackStep_id (matchLen ipCore) ("IP_ADDRESS")
    (((fallbackSanitize s).1, [])) hi]

/-- C8: PII masking is idempotent for the regex-fallback scanner: running
`sanitize_text` a second time on the masked output changes nothing, i.e.
the text component of `sanitize_text (sanitize_text s).text` equals
`(sanitize_text s).text` for every string `s`. -/
theorem pii_masking_idempotent (s : String) :
    (sanitizeTextFallback (sanitizeTextFallback s).1).1 =
      (sanitizeTextFallback s).1 := by
  by_cases h0 : s.isEmpty
  · have hinner : sanitizeTextFallback s = (s, []) := by
      rw [sanitizeTextFallback, if_pos h0]
    rw [hinner]
    show (sanitizeTextFallback s).1 = s
    rw [hinner]
  · have hinner : sanitizeTextFallback s = fallbackSanitize s := by
      rw [sanitizeTextFallback, if_neg h0]
    rw [hinner]
    by_cases h1 : ((fallbackSanitize s).1).isEmpty
    · rw [sanitizeTextFallback, if_pos h1]
    · rw [sanitizeTextFallback, if_neg h1, fallbackSanitize_fixed]

end Sentinel
